import Mathlib

/-!
Verification of the literal-extraction scanner, contract validator and
approval/fingerprint governance of `ui_gate.py` (UI governance gate).

Strings from the source are modelled as `List Char`; every scanner walks the
character list exactly as the Python code walks its string, with index
arithmetic recovered through the number of consumed characters.  Each scanning
loop is modelled as a function structurally recursive on an explicit fuel
argument; the public wrapper (named after the source function) instantiates
the fuel with a bound the loop can never exhaust, so every definition is
kernel-computable and the fuel is semantically inert.
-/

namespace UiGate

/-- The apostrophe character (`'`). -/
def squote : Char := Char.ofNat 39

/-- The backtick character. -/
def btick : Char := Char.ofNat 96

/-! ## Quoted-string lexer (`_parse_quoted_string`) -/

/-- Scanning loop of `_parse_quoted_string` on the characters after the
opening quote `q`.  A `\` consumes the following character verbatim; the value
is `none` when no unescaped closing quote is found.  The second component is
the number of characters consumed. -/
def pqsAuxF (q : Char) : Nat → List Char → Option (List Char) × Nat
  | 0, _ => (none, 0)
  | _ + 1, [] => (none, 0)
  | fuel + 1, c :: rest =>
    if c = '\\' then
      match rest with
      | [] => (none, 1)
      | c2 :: rest2 =>
        let r := pqsAuxF q fuel rest2
        (r.1.map (fun t => c2 :: t), r.2 + 2)
    else if c = q then (some [], 1)
    else
      let r := pqsAuxF q fuel rest
      (r.1.map (fun t => c :: t), r.2 + 1)

/-- `pqsAuxF` with enough fuel to finish the scan. -/
def pqsAux (q : Char) (l : List Char) : Option (List Char) × Nat :=
  pqsAuxF q (l.length + 1) l

/-- `_parse_quoted_string(text, start)`: parse a JS string whose opening quote
is at `start`; returns the decoded value (`none` if unterminated) and the
exclusive end index. -/
def parseQuotedString (text : List Char) (start : Nat) : Option (List Char) × Nat :=
  match text.drop start with
  | [] => (none, start)
  | c :: rest =>
    if c = '"' ∨ c = squote then
      let r := pqsAux c rest
      (r.1, start + 1 + r.2)
    else (none, start)

/-- Whether the character list contains an unescaped occurrence of `q`
(scanning with the same escape convention as `pqsAuxF`). -/
def hasUnescapedQuote (q : Char) : List Char → Bool
  | [] => false
  | c :: rest =>
    if c = '\\' then
      match rest with
      | [] => false
      | _ :: rest2 => hasUnescapedQuote q rest2
    else
      c = q || hasUnescapedQuote q rest

/-! ## Balanced-expression scanner (`_parse_braced_expression`) -/

/-- Quote context of `_parse_braced_expression` / `_find_tag_end`.  In the
source at most one of `in_s`/`in_d`/`in_t` is set at any time, so the three
flags form one four-valued state. -/
inductive QS where
  | plain
  | single
  | dquote
  | tmpl
deriving DecidableEq, Repr

/-- One-character action of `_parse_braced_expression`'s loop: the matching
closing brace was found, or the scan continues in a new state, or a `\` inside
an active quote context consumes two characters. -/
inductive BrStep where
  | found
  | go (qs : QS) (depth : Int)
  | esc
deriving DecidableEq, Repr

/-- Per-character transition of `_parse_braced_expression` (quote flags and
brace depth exactly as in the source; escapes only apply inside an active
quote context). -/
def brStep (qs : QS) (depth : Int) (c : Char) : BrStep :=
  match qs with
  | QS.single =>
    if c = '\\' then BrStep.esc
    else if c = squote then BrStep.go QS.plain depth
    else BrStep.go QS.single depth
  | QS.dquote =>
    if c = '\\' then BrStep.esc
    else if c = '"' then BrStep.go QS.plain depth
    else BrStep.go QS.dquote depth
  | QS.tmpl =>
    if c = '\\' then BrStep.esc
    else if c = btick then BrStep.go QS.plain depth
    else BrStep.go QS.tmpl depth
  | QS.plain =>
    if c = squote then BrStep.go QS.single depth
    else if c = '"' then BrStep.go QS.dquote depth
    else if c = btick then BrStep.go QS.tmpl depth
    else if c = '{' then BrStep.go QS.plain (depth + 1)
    else if c = '}' then
      if depth - 1 = 0 then BrStep.found else BrStep.go QS.plain (depth - 1)
    else BrStep.go QS.plain depth

/-- Scanning loop of `_parse_braced_expression`.  Returns whether the matching
`}` was found together with the number of characters consumed; on an escape at
the end of the text the source's unguarded `i += 2` overshoots by one,
mirrored by consuming 2 out of a single remaining character. -/
def brAuxF : Nat → QS → Int → List Char → Bool × Nat
  | 0, _, _, _ => (false, 0)
  | _ + 1, _, _, [] => (false, 0)
  | fuel + 1, qs, depth, c :: rest =>
    match brStep qs depth c with
    | BrStep.found => (true, 1)
    | BrStep.go qs' d' =>
      let r := brAuxF fuel qs' d' rest
      (r.1, r.2 + 1)
    | BrStep.esc =>
      match rest with
      | [] => (false, 2)
      | _ :: rest2 =>
        let r := brAuxF fuel qs depth rest2
        (r.1, r.2 + 2)

/-- `brAuxF` with enough fuel to finish the scan. -/
def brAux (qs : QS) (depth : Int) (l : List Char) : Bool × Nat :=
  brAuxF (l.length + 1) qs depth l

/-- `_parse_braced_expression(text, start)`: parse a `{ ... }` expression
whose opening brace is at `start`; returns the inner text (`none` if
unterminated) and the exclusive end index. -/
def parseBracedExpression (text : List Char) (start : Nat) : Option (List Char) × Nat :=
  match text.drop start with
  | [] => (none, start)
  | c :: rest =>
    if c = '{' then
      let r := brAux QS.plain 0 (c :: rest)
      if r.1 then (some (rest.take (r.2 - 2)), start + r.2)
      else (none, start + r.2)
    else (none, start)

/-! ## Template literals and literal extraction
(`_parse_template_literal`, `_extract_string_literals_js`) -/

mutual

/-- Scanning loop of `_parse_template_literal` on the characters after the
opening backtick.  `segs` are the flushed static segments, `nested` the
literals found inside `${...}` interpolations, `seg` the static segment being
accumulated.  Returns (`some (segments, nested)` on success, `none` when the
template or an interpolation is unterminated) and the number of characters
consumed. -/
def tplAuxF : Nat → List (List Char) → List (List Char) → List Char → List Char →
    Option (List (List Char) × List (List Char)) × Nat
  | 0, _, _, _, _ => (none, 0)
  | _ + 1, _, _, _, [] => (none, 0)
  | fuel + 1, segs, nested, seg, c :: rest =>
    if c = '\\' then
      match rest with
      | [] => (none, 1)
      | c2 :: rest2 =>
        let r := tplAuxF fuel segs nested (seg ++ [c2]) rest2
        (r.1, r.2 + 2)
    else if c = btick then (some (segs ++ [seg], nested), 1)
    else if c = '$' ∧ rest.head? = some '{' then
      let rb := brAux QS.plain 0 rest
      if rb.1 then
        let inner := (rest.drop 1).take (rb.2 - 2)
        let r := tplAuxF fuel (segs ++ [seg]) (nested ++ extractLitsF fuel inner) []
          (rest.drop rb.2)
        (r.1, r.2 + 1 + rb.2)
      else (none, 1 + rb.2)
    else
      let r := tplAuxF fuel segs nested (seg ++ [c]) rest
      (r.1, r.2 + 1)

/-- Scanning loop of `_extract_string_literals_js`: best-effort extraction of
string literals (quoted values, non-empty template static segments and nested
literals) from a JS expression. -/
def extractLitsF : Nat → List Char → List (List Char)
  | 0, _ => []
  | _ + 1, [] => []
  | fuel + 1, c :: rest =>
    if c = '"' ∨ c = squote then
      let r := pqsAux c rest
      match r.1 with
      | some v => v :: extractLitsF fuel (rest.drop r.2)
      | none => extractLitsF fuel (rest.drop r.2)
    else if c = btick then
      let r := tplAuxF fuel [] [] [] rest
      match r.1 with
      | some (segsv, nst) =>
        segsv.filter (fun s => s ≠ []) ++ nst.filter (fun s => s ≠ []) ++
          extractLitsF fuel (rest.drop r.2)
      | none => extractLitsF fuel (rest.drop r.2)
    else extractLitsF fuel rest

end

/-- `_extract_string_literals_js(expr)` with enough fuel to finish. -/
def extractStringLiteralsJs (l : List Char) : List (List Char) :=
  extractLitsF (l.length + 1) l

/-- `_parse_template_literal(text, start)`: parse a template literal whose
opening backtick is at `start`; returns (`some (segments, nested)`, or `none`
when unterminated) and the exclusive end index. -/
def parseTemplateLiteral (text : List Char) (start : Nat) :
    Option (List (List Char) × List (List Char)) × Nat :=
  match text.drop start with
  | [] => (none, start)
  | c :: rest =>
    if c = btick then
      let r := tplAuxF (rest.length + 1) [] [] [] rest
      (r.1, start + 1 + r.2)
    else (none, start)

/-! ## Attribute-value iterator (`_iter_jsx_attr_values`) -/

/-- `_is_ident_char`. -/
def isIdentChar (c : Char) : Bool := c.isAlphanum || c = '_' || c = '-'

/-- `_at_word_boundary(text, idx, name)`: the occurrence of `name` at `idx`
must not be a substring of a larger identifier. -/
def atWordBoundary (text : List Char) (idx : Nat) (name : List Char) : Bool :=
  (match (if idx > 0 then text.get? (idx - 1) else none) with
   | some c => !isIdentChar c
   | none => true) &&
  (match text.get? (idx + name.length) with
   | some c => !isIdentChar c
   | none => true)

/-- `text.find(pat, i)` for a non-empty needle: smallest index `≥ i` at which
`pat` occurs in `text`, else `none`. -/
def findFromF (text pat : List Char) : Nat → Nat → Option Nat
  | 0, _ => none
  | fuel + 1, i =>
    if i < text.length then
      if pat.isPrefixOf (text.drop i) then some i
      else findFromF text pat fuel (i + 1)
    else none

/-- `findFromF` with enough fuel to finish. -/
def findFrom (text pat : List Char) (i : Nat) : Option Nat :=
  findFromF text pat (text.length + 1) i

/-- Advance over whitespace (the source's `while text[j].isspace(): j += 1`). -/
def skipSpacesF (text : List Char) : Nat → Nat → Nat
  | 0, i => i
  | fuel + 1, i =>
    match text.get? i with
    | some c => if c.isWhitespace then skipSpacesF text fuel (i + 1) else i
    | none => i

/-- `skipSpacesF` with enough fuel to finish. -/
def skipSpaces (text : List Char) (i : Nat) : Nat :=
  skipSpacesF text (text.length + 1) i

/-- Attribute-value kind (`"string" | "expr" | "template" | "bare" |
"boolean" | "unparseable"` in the source), as a closed union. -/
inductive VKind where
  | str
  | expr
  | template
  | bare
  | boolean
  | unparseable
deriving DecidableEq, Repr

/-- One occurrence yielded by `_iter_jsx_attr_values`:
`(attr_start_index, kind, raw_value, extracted_literals)`. -/
structure Occ where
  idx : Nat
  kind : VKind
  raw : List Char
  lits : List (List Char)
deriving DecidableEq, Repr

/-- Python's `str.strip()` (used for the truthiness test `s.strip()`). -/
def pyStrip (l : List Char) : List Char :=
  ((l.dropWhile Char.isWhitespace).reverse.dropWhile Char.isWhitespace).reverse

/-- One iteration of the scanning loop of `_iter_jsx_attr_values` from scan
index `i`: `none` when the loop exits (no further occurrence of `attr`),
otherwise the occurrence yielded by this iteration (if any — word-boundary and
`=` checks can reject a match) together with the next scan index, which is
`max(end, start+1)` after a parsed value exactly as in the source. -/
def iterStep (text attr : List Char) (i : Nat) : Option (Option Occ × Nat) :=
  match findFrom text attr i with
  | none => none
  | some idx =>
    let i1 := idx + attr.length
    if ¬ atWordBoundary text idx attr then some (none, i1)
    else
      let j := skipSpaces text i1
      if text.get? j ≠ some '=' then some (none, i1)
      else
        let j1 := skipSpaces text (j + 1)
        match text.get? j1 with
        | none => some (none, i1)
        | some c =>
          if c = '"' ∨ c = squote then
            let r := parseQuotedString text j1
            let raw := r.1.getD []
            some (some ⟨idx, VKind.str, raw, [raw]⟩, max r.2 (j1 + 1))
          else if c = '{' then
            let r := parseBracedExpression text j1
            let raw := r.1.getD []
            let lits := if r.1.isSome then extractStringLiteralsJs raw else []
            some (some ⟨idx, VKind.expr, raw, lits⟩, max r.2 (j1 + 1))
          else if c = btick then
            let r := parseTemplateLiteral text j1
            let segs := (r.1.map Prod.fst).getD []
            let nst := (r.1.map Prod.snd).getD []
            let lits := segs.filter (fun s => pyStrip s ≠ []) ++
              nst.filter (fun s => pyStrip s ≠ [])
            some (some ⟨idx, VKind.template, segs.flatten, lits⟩, max r.2 (j1 + 1))
          else
            let tok := (text.drop j1).takeWhile
              (fun ch => !ch.isWhitespace && ch ≠ '>' && ch ≠ '/')
            some (some ⟨idx, VKind.bare, tok, []⟩, j1 + tok.length)

/-- The scanning loop of `_iter_jsx_attr_values`, iterating `iterStep`.  The
source prescribes no behaviour for an empty attribute name (its callers pass
`className` / `data-ui` / `data-slot`), so the scan guards on a non-empty
name. -/
def iterAuxF (text attr : List Char) : Nat → Nat → List Occ
  | 0, _ => []
  | fuel + 1, i =>
    if attr.length = 0 then []
    else
      match iterStep text attr i with
      | none => []
      | some (oc, i2) => oc.toList ++ iterAuxF text attr fuel i2

/-- `_iter_jsx_attr_values(text, attr_name)` with enough fuel to finish. -/
def iterJsxAttrValues (text attr : List Char) : List Occ :=
  iterAuxF text attr (text.length + 2) 0

/-! ## Tag extraction (`_find_tag_end`, `_extract_opening_tag`,
`_parse_tag_attributes`) -/

/-- One-character action of `_find_tag_end`'s loop. -/
inductive FtStep where
  | found
  | go (qs : QS) (depth : Nat)
  | esc
deriving DecidableEq, Repr

/-- Per-character transition of `_find_tag_end`: same quote tracking as
`brStep`, but the brace depth only suppresses `>`, `}` at depth 0 is inert,
and the closing `>` is only recognised at depth 0. -/
def fteStep (qs : QS) (depth : Nat) (c : Char) : FtStep :=
  match qs with
  | QS.single =>
    if c = '\\' then FtStep.esc
    else if c = squote then FtStep.go QS.plain depth
    else FtStep.go QS.single depth
  | QS.dquote =>
    if c = '\\' then FtStep.esc
    else if c = '"' then FtStep.go QS.plain depth
    else FtStep.go QS.dquote depth
  | QS.tmpl =>
    if c = '\\' then FtStep.esc
    else if c = btick then FtStep.go QS.plain depth
    else FtStep.go QS.tmpl depth
  | QS.plain =>
    if c = squote then FtStep.go QS.single depth
    else if c = '"' then FtStep.go QS.dquote depth
    else if c = btick then FtStep.go QS.tmpl depth
    else if c = '{' then FtStep.go QS.plain (depth + 1)
    else if c = '}' ∧ depth > 0 then FtStep.go QS.plain (depth - 1)
    else if c = '>' ∧ depth = 0 then FtStep.found
    else FtStep.go QS.plain depth

/-- Scanning loop of `_find_tag_end`; returns the relative offset of the
closing `>` when found. -/
def fteAuxF : Nat → QS → Nat → List Char → Option Nat
  | 0, _, _, _ => none
  | _ + 1, _, _, [] => none
  | fuel + 1, qs, depth, c :: rest =>
    match fteStep qs depth c with
    | FtStep.found => some 0
    | FtStep.go qs' d' => (fteAuxF fuel qs' d' rest).map (fun n => n + 1)
    | FtStep.esc =>
      match rest with
      | [] => none
      | _ :: rest2 => (fteAuxF fuel qs depth rest2).map (fun n => n + 2)

/-- `_find_tag_end(text, tag_start)`. -/
def findTagEnd (text : List Char) (tagStart : Nat) : Option Nat :=
  (fteAuxF ((text.drop tagStart).length + 1) QS.plain 0 (text.drop tagStart)).map
    (fun n => n + tagStart)

/-- `text.rfind(c, 0, before)`: largest index `< before` holding `c`. -/
def rfindLt (text : List Char) (c : Char) : Nat → Option Nat
  | 0 => none
  | b + 1 => if text.get? b = some c then some b else rfindLt text c b

/-- The backward scan of `_extract_opening_tag`: nearest `<` before the
attribute that does not open a closing tag (`</`). -/
def findOpenLtF (text : List Char) : Nat → Nat → Option Nat
  | 0, _ => none
  | fuel + 1, before =>
    match rfindLt text '<' before with
    | none => none
    | some s =>
      if text.get? (s + 1) = some '/' then findOpenLtF text fuel s else some s

/-- `findOpenLtF` with enough fuel to finish. -/
def findOpenLt (text : List Char) (before : Nat) : Option Nat :=
  findOpenLtF text (before + 1) before

/-- `_extract_opening_tag(text, attr_idx)`: the enclosing `<...>` tag of an
attribute occurrence, as (start, end, tag text). -/
def extractOpeningTag (text : List Char) (attrIdx : Nat) :
    Option (Nat × Nat × List Char) :=
  match findOpenLt text attrIdx with
  | none => none
  | some s =>
    match findTagEnd text s with
    | none => none
    | some e => some (s, e, (text.drop s).take (e + 1 - s))

/-- One parsed attribute of a tag:
`(name, kind, raw_value, literals, attr_offset_in_tag)`. -/
structure TagAttr where
  name : List Char
  kind : VKind
  raw : List Char
  lits : List (List Char)
  off : Nat
deriving DecidableEq, Repr

/-- Loop of `_parse_tag_attributes` from index `i` inside the tag text.  When
a bare value is empty the source appends the attribute and the next iteration
immediately breaks on the `>`/`/` it is resting on, folded here into a direct
stop. -/
def ptaAuxF (tag : List Char) : Nat → Nat → List TagAttr
  | 0, _ => []
  | fuel + 1, i =>
    let i0 := skipSpaces tag i
    match tag.get? i0 with
    | none => []
    | some c0 =>
      if c0 = '>' ∨ c0 = '/' then []
      else
        let name := (tag.drop i0).takeWhile
          (fun ch => !ch.isWhitespace && ch ≠ '=' && ch ≠ '>' && ch ≠ '/')
        let i2 := skipSpaces tag (i0 + name.length)
        if tag.get? i2 = some '=' then
          let i3 := skipSpaces tag (i2 + 1)
          match tag.get? i3 with
          | none => [⟨name, VKind.unparseable, [], [], i0⟩]
          | some c =>
            if c = '"' ∨ c = squote then
              let r := parseQuotedString tag i3
              let raw := r.1.getD []
              ⟨name, VKind.str, raw, [raw], i0⟩ :: ptaAuxF tag fuel (max r.2 (i3 + 1))
            else if c = '{' then
              let r := parseBracedExpression tag i3
              let raw := r.1.getD []
              let lits := if r.1.isSome then extractStringLiteralsJs raw else []
              ⟨name, VKind.expr, raw, lits, i0⟩ :: ptaAuxF tag fuel (max r.2 (i3 + 1))
            else if c = btick then
              let r := parseTemplateLiteral tag i3
              let segs := (r.1.map Prod.fst).getD []
              let nst := (r.1.map Prod.snd).getD []
              let lits := segs.filter (fun s => pyStrip s ≠ []) ++
                nst.filter (fun s => pyStrip s ≠ [])
              ⟨name, VKind.template, segs.flatten, lits, i0⟩ ::
                ptaAuxF tag fuel (max r.2 (i3 + 1))
            else
              let tok := (tag.drop i3).takeWhile
                (fun ch => !ch.isWhitespace && ch ≠ '>' && ch ≠ '/')
              if tok.length = 0 then [⟨name, VKind.bare, tok, [], i0⟩]
              else ⟨name, VKind.bare, tok, [], i0⟩ :: ptaAuxF tag fuel (i3 + tok.length)
        else
          ⟨name, VKind.boolean, [], [], i0⟩ :: ptaAuxF tag fuel i2

/-- `_parse_tag_attributes(tag_text)`: skip `<` and the tag name, then parse
the attribute list. -/
def parseTagAttributes (tag : List Char) : List TagAttr :=
  if tag.head? = some '<' then
    let i1 := skipSpaces tag 1
    let i2 := i1 + ((tag.drop i1).takeWhile
      (fun ch => !ch.isWhitespace && ch ≠ '>' && ch ≠ '/')).length
    ptaAuxF tag (tag.length + 2) i2
  else []

/-! ## Rule engine and contract validator (`scan_code_and_css`) -/

/-- Issue severity (`"ERROR" | "WARN"`). -/
inductive Severity where
  | error
  | warn
deriving DecidableEq, Repr

/-- An `Issue` record (`severity, rule, path, line, message`). -/
structure Issue where
  severity : Severity
  rule : String
  path : String
  line : Option Nat
  message : String
deriving DecidableEq, Repr

/-- `compute_line_number(text, idx)`: 1-based line of an offset. -/
def computeLineNumber (text : List Char) (idx : Nat) : Nat :=
  ((text.take idx).filter (fun c => c = '\n')).length + 1

/-- Python's `str.split()` (splitting on whitespace runs and dropping empty
pieces). -/
def pySplit (l : List Char) : List (List Char) :=
  (List.splitOnP (fun c => c.isWhitespace) l).filter (fun t => t ≠ [])

/-- The `tailwind` section of the governance config. -/
structure TailwindCfg where
  allowedUtilityWhitelist : List (List Char)
  disallowedPrefixes : List (List Char)
  disallowedSubstrings : List (List Char)
deriving DecidableEq, Repr

/-- The `tailwind` defaults of `load_governance_config`. -/
def defaultTailwindCfg : TailwindCfg where
  allowedUtilityWhitelist :=
    ["sr-only", "truncate", "break-words", "break-all", "whitespace-nowrap"].map
      String.toList
  disallowedPrefixes :=
    ["bg-", "text-", "from-", "via-", "to-", "decoration-", "font-", "leading-",
     "tracking-", "shadow", "rounded", "ring-", "outline-", "border", "divide-",
     "p-", "px-", "py-", "pt-", "pr-", "pb-", "pl-",
     "m-", "mx-", "my-", "mt-", "mr-", "mb-", "ml-"].map String.toList
  disallowedSubstrings := ["[", "]", "#", "("].map String.toList

/-- Python's `sub in s` substring test. -/
def containsSub (sub : List Char) : List Char → Bool
  | [] => sub.isEmpty
  | c :: rest => sub.isPrefixOf (c :: rest) || containsSub sub rest

/-- Per-token check of the Tailwind B1 rule: the whitelist passes, then the
substring denylist (short-circuiting), then the prefix denylist. -/
def tailwindTokenIssues (tw : TailwindCfg) (rel : String) (line : Nat)
    (token : List Char) : List Issue :=
  if token ∈ tw.allowedUtilityWhitelist then []
  else if tw.disallowedSubstrings.any (fun sub => containsSub sub token) then
    [⟨Severity.error, "tailwind-b1", rel, some line,
      "Disallowed Tailwind token (substring): " ++ String.mk token⟩]
  else if tw.disallowedPrefixes.any (fun p => p.isPrefixOf token) then
    [⟨Severity.error, "tailwind-b1", rel, some line,
      "Disallowed Tailwind token (prefix): " ++ String.mk token⟩]
  else []

/-- The `className` block of `scan_code_and_css`: dynamic class lists with no
analyzable literal are one ERROR; otherwise every non-blank literal is split
into tokens and each token checked by `tailwindTokenIssues`. -/
def tailwindClassNameIssues (tw : TailwindCfg) (rel : String) (text : List Char) :
    List Issue :=
  (iterJsxAttrValues text "className".toList).flatMap (fun o =>
    if (o.kind = VKind.expr ∨ o.kind = VKind.bare ∨ o.kind = VKind.template ∨
        o.kind = VKind.unparseable) ∧ o.lits = [] then
      [⟨Severity.error, "tailwind-b1-unparseable", rel,
        some (computeLineNumber text o.idx),
        "className is dynamic and contains no analyzable string literals. " ++
          "Under Tailwind B1 (layout-only), className must be composed from explicit string literals."⟩]
    else
      (o.lits.filter (fun s => pyStrip s ≠ [])).flatMap (fun lit =>
        (pySplit lit).flatMap (tailwindTokenIssues tw rel (computeLineNumber text o.idx))))

/-- Checks of one non-role `data-*` attribute of a role-tagged element
(the inner loop of the contract block of `scan_code_and_css`). -/
def contractAttrIssues (rel : String) (text : List Char) (tagStart : Nat)
    (roleVal : List Char) (allowedMap : List (List Char × List (List Char)))
    (a : TagAttr) : List Issue :=
  if ¬ "data-".toList.isPrefixOf a.name then []
  else if a.name = "data-ui".toList ∨ a.name = "data-slot".toList then []
  else
    let key := a.name.drop 5
    let line := computeLineNumber text (tagStart + a.off)
    match allowedMap.lookup key with
    | none =>
      [⟨Severity.error, "contract-attr", rel, some line,
        "Role " ++ String.mk roleVal ++ " does not allow attribute " ++ String.mk a.name⟩]
    | some allowedVals =>
      match a.kind with
      | VKind.str =>
        if a.raw ∈ allowedVals then []
        else
          [⟨Severity.error, "contract-enum", rel, some line,
            "Role " ++ String.mk roleVal ++ " attribute " ++ String.mk a.name ++
              " invalid value: " ++ String.mk a.raw⟩]
      | VKind.expr | VKind.template =>
        if a.lits = [] then
          [⟨Severity.error, "contract-dynamic", rel, some line,
            "Attribute " ++ String.mk a.name ++
              " is dynamic but contains no analyzable string literals. " ++
              "Use explicit string literals or conditional rendering."⟩]
        else
          (a.lits.filter (fun s => s ≠ [])).flatMap (fun v =>
            if v ∈ allowedVals then []
            else
              [⟨Severity.error, "contract-enum", rel, some line,
                "Role " ++ String.mk roleVal ++ " attribute " ++ String.mk a.name ++
                  " invalid value: " ++ String.mk v⟩])
      | _ =>
        [⟨Severity.error, "contract-dynamic", rel, some line,
          "Attribute " ++ String.mk a.name ++
            " must be a string literal or a conditional expression of string literals."⟩]

/-- Contract validation of one `data-ui` occurrence: locate the enclosing tag,
resolve the role to exactly one literal, then check every other `data-*`
attribute of the tag. -/
def contractIssuesForOcc (rel : String) (text : List Char)
    (roles : List (List Char))
    (rav : List (List Char × List (List Char × List (List Char))))
    (o : Occ) : List Issue :=
  match extractOpeningTag text o.idx with
  | none =>
    [⟨Severity.error, "contract-tag-parse", rel, some (computeLineNumber text o.idx),
      "Unable to locate enclosing JSX tag for data-ui attribute."⟩]
  | some (tagStart, _tagEnd, tagText) =>
    let attrs := parseTagAttributes tagText
    let roleVal : Option (List Char) :=
      match attrs.find? (fun a => a.name = "data-ui".toList) with
      | none => none
      | some a =>
        if a.kind = VKind.str ∧ a.raw ≠ [] then some a.raw
        else if a.kind = VKind.expr ∨ a.kind = VKind.template then
          if a.lits.length = 1 then a.lits.head? else none
        else none
    match roleVal with
    | none =>
      [⟨Severity.error, "contract-role", rel, some (computeLineNumber text o.idx),
        "data-ui must be a single string literal."⟩]
    | some rv =>
      if rv = [] then
        [⟨Severity.error, "contract-role", rel, some (computeLineNumber text o.idx),
          "data-ui must be a single string literal."⟩]
      else if rv ∉ roles then
        [⟨Severity.error, "contract-role", rel, some (computeLineNumber text o.idx),
          "Unknown data-ui role: " ++ String.mk rv⟩]
      else
        attrs.flatMap (contractAttrIssues rel text tagStart rv ((rav.lookup rv).getD []))

/-- The `data-ui` contract block of `scan_code_and_css`. -/
def contractIssues (rel : String) (text : List Char) (roles : List (List Char))
    (rav : List (List Char × List (List Char × List (List Char)))) : List Issue :=
  (iterJsxAttrValues text "data-ui".toList).flatMap (contractIssuesForOcc rel text roles rav)

/-- The warn-only `data-slot` vocabulary block of `scan_code_and_css`. -/
def slotIssues (rel : String) (text : List Char) (slotVocab : List (List Char)) :
    List Issue :=
  (iterJsxAttrValues text "data-slot".toList).flatMap (fun o =>
    match o.kind with
    | VKind.str =>
      if o.raw ∈ slotVocab then []
      else
        [⟨Severity.warn, "contract-slot", rel, some (computeLineNumber text o.idx),
          "Unknown data-slot value: " ++ String.mk o.raw⟩]
    | VKind.expr | VKind.template =>
      (if o.lits = [] then
        [⟨Severity.warn, "contract-slot", rel, some (computeLineNumber text o.idx),
          "data-slot is dynamic and not analyzable."⟩]
      else []) ++
      (o.lits.filter (fun s => pyStrip s ≠ [])).flatMap (fun v =>
        if v ∈ slotVocab then []
        else
          [⟨Severity.warn, "contract-slot", rel, some (computeLineNumber text o.idx),
            "Unknown data-slot value: " ++ String.mk v⟩])
    | _ =>
      [⟨Severity.warn, "contract-slot", rel, some (computeLineNumber text o.idx),
        "data-slot is not a string literal."⟩])

/-- The JSX-scanning checks of `scan_code_and_css` for one `.ts/.tsx/.js/.jsx`
file, in source order: Tailwind B1, then the `data-ui` contract block, then
the `data-slot` vocabulary block. -/
def scanJsxChecks (tw : TailwindCfg) (rel : String) (text : List Char)
    (roles : List (List Char))
    (rav : List (List Char × List (List Char × List (List Char))))
    (slotVocab : List (List Char)) : List Issue :=
  tailwindClassNameIssues tw rel text ++ contractIssues rel text roles rav ++
    slotIssues rel text slotVocab

/-! ## Fingerprint and approval ledger
(`load_approvals`, `latest_approval`, `approval_is_expired`,
`compute_spec_fingerprint`, `ensure_baseline_approvals`, and the approval
checks of `main`).  The SHA-256 digest is abstracted as a function parameter
`sha`; timestamps and digests are character lists compared exactly as Python
compares `str`. -/

/-- Python's `<` on strings (lexicographic by code point). -/
def pyStrLt : List Char → List Char → Bool
  | _, [] => false
  | [], _ :: _ => true
  | x :: xs, y :: ys => if x < y then true else if x = y then pyStrLt xs ys else false

/-- Stable insertion into an ascending list (for Python's `sorted`). -/
def insertSortedStr (s : List Char) : List (List Char) → List (List Char)
  | [] => [s]
  | t :: rest => if pyStrLt s t then s :: t :: rest else t :: insertSortedStr s rest

/-- Python's `sorted` on a list of strings. -/
def sortStrings (l : List (List Char)) : List (List Char) :=
  l.foldr insertSortedStr []

/-- Python's `"\n".join`. -/
def joinNl : List (List Char) → List Char
  | [] => []
  | [x] => x
  | x :: y :: rest => x ++ '\n' :: joinNl (y :: rest)

/-- `compute_spec_fingerprint(repo_root)` over the governed file set
(`relpath ↦ raw content`), with the hash function abstracted as `sha`:
per-file digests, then the hash of the sorted `"relpath:digest"` join.
Returns the fingerprint and the per-file digest map. -/
def computeSpecFingerprint (sha : List Char → List Char)
    (files : List (List Char × List Char)) :
    List Char × List (List Char × List Char) :=
  let per := files.map (fun f => (f.1, sha f.2))
  let parts := per.map (fun f => f.1 ++ ':' :: f.2)
  (sha (joinNl (sortStrings parts)), per)

/-- `changed_files(old, new)`: sorted union of the keys at which the two maps
disagree (`dict.get` semantics: a missing key is `none`). -/
def changedFiles (old new : List (List Char × List Char)) : List (List Char) :=
  (sortStrings ((old.map Prod.fst ++ new.map Prod.fst).dedup)).filter
    (fun k => old.lookup k ≠ new.lookup k)

/-- One approval record (the fields of the persisted JSON object that the
gate reads back). -/
structure ApprovalRecord where
  approvalType : String
  approvedAtUtc : List Char
  fingerprint : List Char
  expiresAtUtc : Option (List Char)
  files : Option (List (List Char))
deriving DecidableEq, Repr

/-- `latest_approval(approvals, approval_type)`: last matching record of the
ledger (the ledger list is in `load_approvals` sort order). -/
def latestApproval (approvals : List ApprovalRecord) (t : String) :
    Option ApprovalRecord :=
  (approvals.filter (fun a => a.approvalType = t)).getLast?

/-- `approval_is_expired(approval)` at the current timestamp `now`: a missing
or empty `expires_at_utc` never expires, otherwise the ISO-Zulu strings are
compared lexicographically. -/
def approvalIsExpired (now : List Char) (a : ApprovalRecord) : Bool :=
  match a.expiresAtUtc with
  | none => false
  | some e => if e = [] then false else pyStrLt e now

/-- The `spec_change` baseline record written by `ensure_baseline_approvals`. -/
def specBaselineRecord (now fp : List Char) (files : List (List Char)) :
    ApprovalRecord :=
  ⟨"spec_change", now, fp, none, some files⟩

/-- The `exception` baseline record written by `ensure_baseline_approvals`
(effectively permanent expiry). -/
def excBaselineRecord (now fp : List Char) : ApprovalRecord :=
  ⟨"exception", now, fp, some "9999-12-31T00:00:00Z".toList, none⟩

/-- The `approvals` section of the governance config. -/
structure ApprovalsCfg where
  enabled : Bool
  enforceSpec : Bool
  enforceExc : Bool
  autoBaseline : Bool
deriving DecidableEq, Repr

/-- `ensure_baseline_approvals(repo_root, cfg)`: when approvals are enabled
and `auto_baseline_if_missing` is set, write a `spec_change` baseline if no
`spec_change` record exists, then (after reloading) an `exception` baseline if
no `exception` record exists.  Returns the resulting ledger and the created
records. -/
def ensureBaselineApprovals (ac : ApprovalsCfg) (now specFp : List Char)
    (files : List (List Char)) (excFp : List Char)
    (ledger : List ApprovalRecord) :
    List ApprovalRecord × Option ApprovalRecord × Option ApprovalRecord :=
  if ¬ ac.enabled then (ledger, none, none)
  else if ¬ ac.autoBaseline then (ledger, none, none)
  else
    let p1 : List ApprovalRecord × Option ApprovalRecord :=
      if latestApproval ledger "spec_change" = none then
        (ledger ++ [specBaselineRecord now specFp files],
         some (specBaselineRecord now specFp files))
      else (ledger, none)
    let p2 : List ApprovalRecord × Option ApprovalRecord :=
      if latestApproval p1.1 "exception" = none then
        (p1.1 ++ [excBaselineRecord now excFp], some (excBaselineRecord now excFp))
      else (p1.1, none)
    (p2.1, p1.2, p2.2)

/-- The fields of `build_approval_request` the gate computes from state
(`approval_type`, `previous_fingerprint`, `current_fingerprint`,
`changed_files`). -/
structure ApprovalRequest where
  approvalType : String
  previousFingerprint : Option (List Char)
  currentFingerprint : List Char
  changedFiles : List (List Char)
deriving DecidableEq, Repr

/-- Result of the approvals section of `main` (lines 1840-1926): the ledger
after auto-baselining, the records created, the governance-drift issues, and
the approval request written in run mode (if any) per fingerprint domain. -/
structure GateOutcome where
  ledger : List ApprovalRecord
  createdSpec : Option ApprovalRecord
  createdExc : Option ApprovalRecord
  issues : List Issue
  specRequest : Option ApprovalRequest
  excRequest : Option ApprovalRequest
deriving DecidableEq, Repr

/-- The `spec_change` drift check of `main` (its "Spec approval" block):
compares the latest `spec_change` approval's fingerprint with the current one
and, on mismatch, emits the `spec-approval-required` ERROR and (in run mode)
the approval request. -/
def specCheckPart (enforce runMode : Bool) (specFp : List Char)
    (curMap : List (List Char × List Char)) (l2 : List ApprovalRecord) :
    List Issue × Option ApprovalRequest :=
  if enforce then
    match latestApproval l2 "spec_change" with
    | some r =>
      if r.fingerprint ≠ [] ∧ r.fingerprint ≠ specFp then
        let ch :=
          match r.files with
          | some fl =>
            if fl ≠ [] then
              changedFiles (fl.map (fun k => (k, ([] : List Char)))) curMap
            else sortStrings (curMap.map Prod.fst)
          | none => sortStrings (curMap.map Prod.fst)
        ([⟨Severity.error, "spec-approval-required", "ui/", none,
           "UI spec changed without approval. See approval.request.json and run approval-approve."⟩],
         if runMode then some ⟨"spec_change", some r.fingerprint, specFp, ch⟩
         else none)
      else ([], none)
    | none => ([], none)
  else ([], none)

/-- The `exception` drift check of `main` (its "Exception approval" block):
an expired latest record is treated as absent; otherwise its fingerprint is
compared with the current exception fingerprint. -/
def excCheckPart (enforce runMode : Bool) (now excFp : List Char)
    (l2 : List ApprovalRecord) : List Issue × Option ApprovalRequest :=
  if enforce then
    match latestApproval l2 "exception" with
    | some r =>
      if approvalIsExpired now r then ([], none)
      else if r.fingerprint ≠ [] ∧ r.fingerprint ≠ excFp then
        ([⟨Severity.error, "exception-approval-required", "ui/config/governance.json",
           none,
           "Governance policy changed without exception approval. See approval.request.json."⟩],
         if runMode then
           some ⟨"exception", some r.fingerprint, excFp,
             ["ui/config/governance.json".toList]⟩
         else none)
      else ([], none)
    | none => ([], none)
  else ([], none)

/-- The approvals section of `main`: guard on `approvals.enabled` and the
existence of the tokens and contract files, auto-baseline, then the
`spec_change` drift check followed by the `exception` drift check. -/
def runApprovalChecks (ac : ApprovalsCfg) (tokensExist contractExist runMode : Bool)
    (now specFp : List Char) (curMap : List (List Char × List Char))
    (excFp : List Char) (ledger : List ApprovalRecord) : GateOutcome :=
  if ¬ (ac.enabled ∧ tokensExist ∧ contractExist) then
    ⟨ledger, none, none, [], none, none⟩
  else
    let eb := ensureBaselineApprovals ac now specFp
      (sortStrings (curMap.map Prod.fst)) excFp ledger
    let sp := specCheckPart ac.enforceSpec runMode specFp curMap eb.1
    let ep := excCheckPart ac.enforceExc runMode now excFp eb.1
    ⟨eb.1, eb.2.1, eb.2.2, sp.1 ++ ep.1, sp.2, ep.2⟩

/-! ## Lemmas about the lexers -/

theorem pqsAuxF_cons (q : Char) (fuel : Nat) (c : Char) (rest : List Char) :
    pqsAuxF q (fuel + 1) (c :: rest) =
      if c = '\\' then
        match rest with
        | [] => (none, 1)
        | c2 :: rest2 =>
          let r := pqsAuxF q fuel rest2
          (r.1.map (fun t => c2 :: t), r.2 + 2)
      else if c = q then (some [], 1)
      else
        let r := pqsAuxF q fuel rest
        (r.1.map (fun t => c :: t), r.2 + 1) := rfl

theorem pqsAuxF_unterminated (q : Char) :
    ∀ (fuel : Nat) (l : List Char), l.length < fuel →
      hasUnescapedQuote q l = false → pqsAuxF q fuel l = (none, l.length) := by
  intro fuel
  induction fuel with
  | zero => intro l hl _; exact absurd hl (by omega)
  | succ k ih =>
    intro l hl h
    cases l with
    | nil => rfl
    | cons c rest =>
      rw [hasUnescapedQuote.eq_def] at h
      rw [pqsAuxF_cons]
      simp only at h
      by_cases hc : c = '\\'
      · subst hc
        simp only [if_pos rfl] at h ⊢
        cases rest with
        | nil => rfl
        | cons c2 rest2 =>
          simp only at h ⊢
          have hlen : rest2.length < k := by
            simp [List.length] at hl
            omega
          have hrec := ih rest2 hlen h
          rw [hrec]
          simp [List.length]
      · simp only [if_neg hc] at h ⊢
        have h' : ¬ c = q ∧ hasUnescapedQuote q rest = false := by
          simpa using h
        have hlen : rest.length < k := by
          simp [List.length] at hl
          omega
        have hrec := ih rest hlen h'.2
        rw [if_neg h'.1, hrec]
        simp [List.length]

theorem drop_cons_of_getq {l : List Char} {n : Nat} {a : Char}
    (h : l.get? n = some a) : l.drop n = a :: l.drop (n + 1) ∧ n < l.length := by
  have h1 : n < l.length := by
    by_contra hn
    push_neg at hn
    rw [List.get?_eq_none.mpr hn] at h
    exact absurd h (by simp)
  refine ⟨?_, h1⟩
  rw [List.drop_eq_getElem_cons h1]
  congr 1
  have h2 : l[n]? = some a := by
    rw [← List.get?_eq_getElem?]
    exact h
  rw [List.getElem?_eq_getElem h1] at h2
  exact Option.some.inj h2

/-- An unterminated quoted string parses to `(null, text.length)`. -/
theorem parseQuotedString_unterminated (text : List Char) (start : Nat) (q : Char)
    (hget : text.get? start = some q) (hq : q = '"' ∨ q = squote)
    (hterm : hasUnescapedQuote q (text.drop (start + 1)) = false) :
    parseQuotedString text start = (none, text.length) := by
  obtain ⟨hdrop, hlt⟩ := drop_cons_of_getq hget
  have hrun : pqsAux q (text.drop (start + 1)) =
      (none, (text.drop (start + 1)).length) :=
    pqsAuxF_unterminated q ((text.drop (start + 1)).length + 1)
      (text.drop (start + 1)) (by omega) hterm
  unfold parseQuotedString
  rw [hdrop]
  simp only [if_pos hq, pqsAux] at hrun ⊢
  rw [hrun]
  simp [List.length_drop]
  omega

theorem brAuxF_cons (fuel : Nat) (qs : QS) (depth : Int) (c : Char) (rest : List Char) :
    brAuxF (fuel + 1) qs depth (c :: rest) =
      match brStep qs depth c with
      | BrStep.found => (true, 1)
      | BrStep.go qs' d' =>
        let r := brAuxF fuel qs' d' rest
        (r.1, r.2 + 1)
      | BrStep.esc =>
        match rest with
        | [] => (false, 2)
        | _ :: rest2 =>
          let r := brAuxF fuel qs depth rest2
          (r.1, r.2 + 2) := rfl

theorem brAuxF_false_len :
    ∀ (fuel : Nat) (l : List Char), l.length < fuel → ∀ (qs : QS) (depth : Int),
      (brAuxF fuel qs depth l).1 = false →
      (brAuxF fuel qs depth l).2 = l.length ∨
        (brAuxF fuel qs depth l).2 = l.length + 1 := by
  intro fuel
  induction fuel with
  | zero => intro l hl; exact absurd hl (by omega)
  | succ k ih =>
    intro l hl qs depth
    cases l with
    | nil => intro _; left; rfl
    | cons c rest =>
      rw [brAuxF_cons]
      cases hstep : brStep qs depth c with
      | found => intro hfail; simp at hfail
      | go qs' d' =>
        simp only
        intro hfail
        have hlen : rest.length < k := by
          simp [List.length] at hl
          omega
        rcases ih rest hlen qs' d' hfail with hn | hn
        · left; simp [hn, List.length]
        · right; simp [hn, List.length]
      | esc =>
        cases rest with
        | nil => intro _; right; rfl
        | cons c2 rest2 =>
          simp only
          intro hfail
          have hlen : rest2.length < k := by
            simp [List.length] at hl
            omega
          rcases ih rest2 hlen qs depth hfail with hn | hn
          · left; simp [hn, List.length]
          · right; simp [hn, List.length]

/-- An unterminated braced expression ends at `text.length` or overshoots it
by exactly one. -/
theorem parseBracedExpression_unterminated (text : List Char) (start : Nat)
    (hget : text.get? start = some '{')
    (hfail : (parseBracedExpression text start).1 = none) :
    (parseBracedExpression text start).2 = text.length ∨
      (parseBracedExpression text start).2 = text.length + 1 := by
  obtain ⟨hdrop, hlt⟩ := drop_cons_of_getq hget
  cases hb : (brAux QS.plain 0 ('{' :: text.drop (start + 1))).1 with
  | true =>
    have : (parseBracedExpression text start).1 = some
        ((text.drop (start + 1)).take
          ((brAux QS.plain 0 ('{' :: text.drop (start + 1))).2 - 2)) := by
      unfold parseBracedExpression
      rw [hdrop]
      simp [hb]
    rw [this] at hfail
    exact absurd hfail (by simp)
  | false =>
    have hval : parseBracedExpression text start =
        (none, start + (brAux QS.plain 0 ('{' :: text.drop (start + 1))).2) := by
      unfold parseBracedExpression
      rw [hdrop]
      simp [hb]
    have hlen : (brAux QS.plain 0 ('{' :: text.drop (start + 1))).2 =
          ('{' :: text.drop (start + 1)).length ∨
        (brAux QS.plain 0 ('{' :: text.drop (start + 1))).2 =
          ('{' :: text.drop (start + 1)).length + 1 :=
      brAuxF_false_len (('{' :: text.drop (start + 1)).length + 1)
        ('{' :: text.drop (start + 1)) (by omega) QS.plain 0 hb
    rw [hval]
    rcases hlen with hn | hn <;> [left; right] <;>
      (rw [hn]; simp only [List.length_cons, List.length_drop]; omega)

theorem pqsAuxF_roundtrip (q : Char) (hqb : q ≠ '\\') :
    ∀ (fuel : Nat) (s : List Char), s.length + 2 ≤ fuel → q ∉ s → '\\' ∉ s →
      pqsAuxF q fuel (s ++ [q]) = (some s, s.length + 1) := by
  intro fuel
  induction fuel with
  | zero => intro s hl; exact absurd hl (by omega)
  | succ k ih =>
    intro s hl hq hb
    cases s with
    | nil =>
      rw [List.nil_append, pqsAuxF_cons, if_neg hqb, if_pos rfl]
      simp
    | cons c rest =>
      have hcq : ¬ c = q := by
        intro h; exact hq (h ▸ List.mem_cons_self c rest)
      have hcb : ¬ c = '\\' := by
        intro h; exact hb (h ▸ List.mem_cons_self c rest)
      have hrec := ih rest (by simp at hl; omega)
        (fun h => hq (List.mem_cons_of_mem c h))
        (fun h => hb (List.mem_cons_of_mem c h))
      rw [List.cons_append, pqsAuxF_cons, if_neg hcb, if_neg hcq, hrec]
      simp [List.length]

theorem c9_amended (s : List Char) (hq : '"' ∉ s) (hb : '\\' ∉ s) :
    parseQuotedString ('"' :: s ++ ['"']) 0 = (some s, s.length + 2) := by
  have hrun := pqsAuxF_roundtrip '"' (by decide) ((s ++ ['"']).length + 1) s
    (by simp) hq hb
  unfold parseQuotedString
  rw [List.drop_zero, List.cons_append]
  simp only []
  rw [if_pos (Or.inl trivial : True ∨ ('"' : Char) = squote)]
  simp only [pqsAux, List.length_append, List.length_cons, List.length_nil] at hrun ⊢
  rw [hrun]
  simp
  omega

/-- C8 (amended): on unterminated input `parseQuotedString` returns
`(null, text.length)`; `parseBracedExpression` whose value is `null` ends at
`text.length` as claimed, except that when the text ends with a backslash
inside an active quote context the source's unguarded two-character escape
skip makes the end offset `text.length + 1`. -/
theorem c8_amended (text : List Char) (start : Nat) :
    (∀ q, text.get? start = some q → (q = '"' ∨ q = squote) →
      hasUnescapedQuote q (text.drop (start + 1)) = false →
      parseQuotedString text start = (none, text.length)) ∧
    (text.get? start = some '{' →
      (parseBracedExpression text start).1 = none →
      ((parseBracedExpression text start).2 = text.length ∨
       (parseBracedExpression text start).2 = text.length + 1)) :=
  ⟨fun q hget hq hterm => parseQuotedString_unterminated text start q hget hq hterm,
   fun hget hfail => parseBracedExpression_unterminated text start hget hfail⟩

/-- Witness for `c8_amended` at concrete inputs. -/
theorem c8_amended_witness :
    parseQuotedString ['"', 'a'] 0 = (none, 2) ∧
    ((parseBracedExpression ['{', 'a'] 0).2 = 2 ∨
     (parseBracedExpression ['{', 'a'] 0).2 = 3) :=
  ⟨(c8_amended ['"', 'a'] 0).1 '"' (by decide) (by decide) (by decide),
   (c8_amended ['{', 'a'] 0).2 (by decide) (by decide)⟩

/-- C8 counterexample: with the text `{'\` (length 3, whose brace depth never
returns to zero), `parseBracedExpression` returns `(null, 4)`, not
`(null, text.length) = (null, 3)` as the claim states. -/
theorem c8_counterexample :
    parseBracedExpression ['{', squote, '\\'] 0 = (none, 4) ∧
    (['{', squote, '\\'] : List Char).length = 3 ∧
    parseBracedExpression ['{', squote, '\\'] 0 ≠
      (none, (['{', squote, '\\'] : List Char).length) :=
  ⟨by decide, by decide, by decide⟩

/-- C9 (amended): the round trip
`parseQuotedString('"'+s+'"', 0) = (s, len+2)` holds for every `s` containing
neither a `"` nor a backslash; a backslash in `s` is decoded as an escape, so
for such `s` the parsed value differs from `s`. -/
theorem c9_amended_roundtrip (s : List Char) (hq : '"' ∉ s) (hb : '\\' ∉ s) :
    parseQuotedString ('"' :: s ++ ['"']) 0 = (some s, s.length + 2) :=
  c9_amended s hq hb

/-- Witness for `c9_amended_roundtrip` at a concrete input. -/
theorem c9_amended_witness :
    parseQuotedString ('"' :: ['x'] ++ ['"']) 0 = (some ['x'], 3) :=
  c9_amended_roundtrip ['x'] (by decide) (by decide)

/-- C9 counterexample: for `s = a\b` (three characters, no embedded unescaped
quote), the claim predicts the pair `(s, 5)`, but the lexer decodes the escape
and returns `(ab, 5)` whose value is not `s`. -/
theorem c9_counterexample :
    parseQuotedString ('"' :: ['a', '\\', 'b'] ++ ['"']) 0 = (some ['a', 'b'], 5) ∧
    parseQuotedString ('"' :: ['a', '\\', 'b'] ++ ['"']) 0 ≠
      (some ['a', '\\', 'b'], (['a', '\\', 'b'] : List Char).length + 2) :=
  ⟨by decide, by decide⟩


/-! ## Scan-level theorems (C1, C2, C6, C7) -/

/-- C6: token checking order of the utility-class rule, with the two spec
scenarios.  Scenario A (`<div className="bg-red-500 flex">`) and Scenario B
(`<div className={isActive ? "bg-red-500" : "flex"}>`) under the default
config each produce exactly one `tailwind-b1` ERROR for `bg-red-500`
(matching prefix `bg-`) and nothing for `flex`; in general a whitelisted
token passes with no further checks, a denylisted substring is one ERROR that
short-circuits the prefix check, a denylisted prefix is one ERROR, and all
remaining tokens pass. -/
theorem c6_token_checks :
    (scanJsxChecks defaultTailwindCfg "f.tsx"
        "<div className=\"bg-red-500 flex\">".toList [] [] [] =
      [⟨Severity.error, "tailwind-b1", "f.tsx", some 1,
        "Disallowed Tailwind token (prefix): bg-red-500"⟩]) ∧
    (scanJsxChecks defaultTailwindCfg "f.tsx"
        "<div className=\x7bisActive ? \"bg-red-500\" : \"flex\"\x7d>".toList [] [] [] =
      [⟨Severity.error, "tailwind-b1", "f.tsx", some 1,
        "Disallowed Tailwind token (prefix): bg-red-500"⟩]) ∧
    (∀ (tw : TailwindCfg) (rel : String) (line : Nat) (token : List Char),
      (token ∈ tw.allowedUtilityWhitelist → tailwindTokenIssues tw rel line token = []) ∧
      (token ∉ tw.allowedUtilityWhitelist →
        tw.disallowedSubstrings.any (fun sub => containsSub sub token) = true →
        tailwindTokenIssues tw rel line token =
          [⟨Severity.error, "tailwind-b1", rel, some line,
            "Disallowed Tailwind token (substring): " ++ String.mk token⟩]) ∧
      (token ∉ tw.allowedUtilityWhitelist →
        tw.disallowedSubstrings.any (fun sub => containsSub sub token) = false →
        tw.disallowedPrefixes.any (fun p => p.isPrefixOf token) = true →
        tailwindTokenIssues tw rel line token =
          [⟨Severity.error, "tailwind-b1", rel, some line,
            "Disallowed Tailwind token (prefix): " ++ String.mk token⟩]) ∧
      (token ∉ tw.allowedUtilityWhitelist →
        tw.disallowedSubstrings.any (fun sub => containsSub sub token) = false →
        tw.disallowedPrefixes.any (fun p => p.isPrefixOf token) = false →
        tailwindTokenIssues tw rel line token = [])) := by
  refine ⟨by decide, by decide, ?_⟩
  intro tw rel line token
  refine ⟨?_, ?_, ?_, ?_⟩
  · intro h
    simp [tailwindTokenIssues, h]
  · intro h hsub
    simp [tailwindTokenIssues, h, hsub]
  · intro h hsub hpre
    simp [tailwindTokenIssues, h, hsub, hpre]
  · intro h hsub hpre
    simp [tailwindTokenIssues, h, hsub, hpre]

/-- Witness for `c6_token_checks`: the ordering clauses applied to concrete
tokens under the default config. -/
theorem c6_token_checks_witness :
    tailwindTokenIssues defaultTailwindCfg "f.tsx" 1 "bg-red-500".toList =
      [⟨Severity.error, "tailwind-b1", "f.tsx", some 1,
        "Disallowed Tailwind token (prefix): " ++ String.mk "bg-red-500".toList⟩] ∧
    tailwindTokenIssues defaultTailwindCfg "f.tsx" 1 "flex".toList = [] ∧
    tailwindTokenIssues defaultTailwindCfg "f.tsx" 1 "sr-only".toList = [] ∧
    tailwindTokenIssues defaultTailwindCfg "f.tsx" 1 "bg-[#fff]".toList =
      [⟨Severity.error, "tailwind-b1", "f.tsx", some 1,
        "Disallowed Tailwind token (substring): " ++ String.mk "bg-[#fff]".toList⟩] :=
  ⟨(c6_token_checks.2.2 defaultTailwindCfg "f.tsx" 1 "bg-red-500".toList).2.2.1
      (by decide) (by decide) (by decide),
   (c6_token_checks.2.2 defaultTailwindCfg "f.tsx" 1 "flex".toList).2.2.2
      (by decide) (by decide) (by decide),
   (c6_token_checks.2.2 defaultTailwindCfg "f.tsx" 1 "sr-only".toList).1 (by decide),
   (c6_token_checks.2.2 defaultTailwindCfg "f.tsx" 1 "bg-[#fff]".toList).2.1
      (by decide) (by decide)⟩


/-- C1 (amended): extraction failures are surfaced as ERROR issues for
unterminated braced expressions and template literals in a `className` value
(which yield a dynamic occurrence with no literals, flagged
`tailwind-b1-unparseable`) and for a `data-ui` occurrence whose enclosing tag
cannot be located (flagged `contract-tag-parse`); and the scan of a file is a
total function, so no failure aborts it.  An unterminated quoted string,
however, is yielded as a string-kind occurrence with an empty value and can
produce no issue at all (see the counterexample). -/
theorem c1_amended (tw : TailwindCfg) (rel : String) (text : List Char)
    (roles : List (List Char))
    (rav : List (List Char × List (List Char × List (List Char))))
    (vocab : List (List Char)) :
    (∀ o ∈ iterJsxAttrValues text "className".toList,
      (o.kind = VKind.expr ∨ o.kind = VKind.bare ∨ o.kind = VKind.template ∨
        o.kind = VKind.unparseable) → o.lits = [] →
      (⟨Severity.error, "tailwind-b1-unparseable", rel,
        some (computeLineNumber text o.idx),
        "className is dynamic and contains no analyzable string literals. " ++
          "Under Tailwind B1 (layout-only), className must be composed from explicit string literals."⟩ : Issue) ∈
        scanJsxChecks tw rel text roles rav vocab) ∧
    (∀ o ∈ iterJsxAttrValues text "data-ui".toList,
      extractOpeningTag text o.idx = none →
      (⟨Severity.error, "contract-tag-parse", rel,
        some (computeLineNumber text o.idx),
        "Unable to locate enclosing JSX tag for data-ui attribute."⟩ : Issue) ∈
        scanJsxChecks tw rel text roles rav vocab) := by
  constructor
  · intro o ho hkind hlits
    apply List.mem_append_left
    apply List.mem_append_left
    unfold tailwindClassNameIssues
    refine List.mem_flatMap.mpr ⟨o, ho, ?_⟩
    rw [if_pos ⟨hkind, hlits⟩]
    exact List.mem_singleton.mpr rfl
  · intro o ho hnone
    apply List.mem_append_left
    apply List.mem_append_right
    unfold contractIssues
    refine List.mem_flatMap.mpr ⟨o, ho, ?_⟩
    unfold contractIssuesForOcc
    rw [hnone]
    exact List.mem_singleton.mpr rfl

/-- Witness for `c1_amended`: an unterminated template literal in `className`
(a dynamic occurrence with no literals) and a `data-ui` occurrence with no
enclosing `<` are both surfaced as ERROR issues of the scan. -/
theorem c1_amended_witness :
    ((⟨Severity.error, "tailwind-b1-unparseable", "f.tsx", some 1,
      "className is dynamic and contains no analyzable string literals. " ++
        "Under Tailwind B1 (layout-only), className must be composed from explicit string literals."⟩ : Issue) ∈
      scanJsxChecks defaultTailwindCfg "f.tsx" "<p className=\x7bfoo\x7d>".toList [] [] []) ∧
    ((⟨Severity.error, "contract-tag-parse", "f.tsx", some 1,
      "Unable to locate enclosing JSX tag for data-ui attribute."⟩ : Issue) ∈
      scanJsxChecks defaultTailwindCfg "f.tsx" "data-ui=\"card\"".toList [] [] []) :=
  ⟨(c1_amended defaultTailwindCfg "f.tsx" "<p className=\x7bfoo\x7d>".toList [] [] []).1
      ⟨3, VKind.expr, "foo".toList, []⟩ (by decide) (by decide) (by decide),
   (c1_amended defaultTailwindCfg "f.tsx" "data-ui=\"card\"".toList [] [] []).2
      ⟨0, VKind.str, "card".toList, ["card".toList]⟩ (by decide) (by decide)⟩

/-- C1 counterexample: the file `<p className="a` ends in an unterminated
quoted string (the lexer fails at the quote at offset 13), yet the scan
produces no issue at all — this extraction failure is not surfaced as an
ERROR, contradicting the claim. -/
theorem c1_counterexample :
    (parseQuotedString "<p className=\"a".toList 13).1 = none ∧
    scanJsxChecks defaultTailwindCfg "f.tsx" "<p className=\"a".toList [] [] [] = [] :=
  ⟨by decide, by decide⟩

/-- C2 (amended): for a contract-governed `data-*` attribute of expression or
template kind, an empty extracted-literal list is flagged `contract-dynamic`,
but a non-empty literal list all of whose literals are empty strings produces
no issue at all: the empty literals are filtered out of the enum check and the
attribute passes silently. -/
theorem c2_amended (rel : String) (text : List Char) (tagStart : Nat)
    (roleVal : List Char) (allowedMap : List (List Char × List (List Char)))
    (a : TagAttr) (hda : "data-".toList.isPrefixOf a.name)
    (hui : a.name ≠ "data-ui".toList) (hslot : a.name ≠ "data-slot".toList)
    (vals : List (List Char)) (hkey : allowedMap.lookup (a.name.drop 5) = some vals)
    (hkind : a.kind = VKind.expr ∨ a.kind = VKind.template) :
    (a.lits = [] →
      contractAttrIssues rel text tagStart roleVal allowedMap a =
        [⟨Severity.error, "contract-dynamic", rel,
          some (computeLineNumber text (tagStart + a.off)),
          "Attribute " ++ String.mk a.name ++
            " is dynamic but contains no analyzable string literals. " ++
            "Use explicit string literals or conditional rendering."⟩]) ∧
    (a.lits ≠ [] → (∀ v ∈ a.lits, v = []) →
      contractAttrIssues rel text tagStart roleVal allowedMap a = []) := by
  constructor
  · intro hlits
    unfold contractAttrIssues
    rw [if_neg (not_not_intro hda), if_neg (not_or.mpr ⟨hui, hslot⟩)]
    simp only []
    rw [hkey]
    rcases hkind with hk | hk <;> rw [hk] <;> simp [hlits]
  · intro hne hall
    unfold contractAttrIssues
    rw [if_neg (not_not_intro hda), if_neg (not_or.mpr ⟨hui, hslot⟩)]
    simp only []
    rw [hkey]
    have hfilter : a.lits.filter (fun s => s ≠ []) = [] := by
      rw [List.filter_eq_nil_iff]
      intro v hv
      simp [hall v hv]
    rcases hkind with hk | hk <;> rw [hk] <;>
      (simp [hne, hfilter]
       intro x hx hx2
       exact absurd (hall x hx) hx2)

/-- Witness for `c2_amended` at a concrete attribute (`data-variant={""}`
with literal list `[""]` under a role allowing `variant ∈ {primary}`). -/
theorem c2_amended_witness :
    contractAttrIssues "f.tsx" "x".toList 0 "card".toList
      [("variant".toList, ["primary".toList])]
      ⟨"data-variant".toList, VKind.expr, "\"\"".toList, [[]], 20⟩ = [] :=
  (c2_amended "f.tsx" "x".toList 0 "card".toList
      [("variant".toList, ["primary".toList])]
      ⟨"data-variant".toList, VKind.expr, "\"\"".toList, [[]], 20⟩
      (by decide) (by decide) (by decide) ["primary".toList] (by decide)
      (Or.inl rfl)).2 (by decide) (by decide)

/-- C2 counterexample: on `<div data-ui="card" data-variant={""}>` with role
`card` allowing `variant ∈ {primary, secondary}`, the `data-variant` value is
of expression kind and extracts exactly the literal list `[""]` (all empty),
yet the whole scan emits no issue — the empty literal silently satisfies the
contract check, contradicting the claim. -/
theorem c2_counterexample :
    ((parseTagAttributes "<div data-ui=\"card\" data-variant=\x7b\"\"\x7d>".toList).map
        (fun a => (a.name, a.kind, a.lits)) =
      [("data-ui".toList, VKind.str, ["card".toList]),
       ("data-variant".toList, VKind.expr, [([] : List Char)])]) ∧
    scanJsxChecks defaultTailwindCfg "f.tsx"
        "<div data-ui=\"card\" data-variant=\x7b\"\"\x7d>".toList
        ["card".toList]
        [("card".toList, [("variant".toList, ["primary".toList, "secondary".toList])])]
        [] = [] :=
  ⟨by decide, by decide⟩


/-- C7 (amended): for a located tag, the role must resolve to exactly one
extracted literal *occurrence* (duplicates are not collapsed): a `data-ui`
value of expression/template kind with a literal-occurrence count other than
one, or of bare kind, yields exactly one `contract-role` ERROR for the tag and
no further attribute checks; a resolved literal that is not a contract role
also yields exactly one `contract-role` ERROR.  Scenario D
(`<div data-ui={role}>`) produces exactly that single ERROR. -/
theorem c7_amended :
    (scanJsxChecks defaultTailwindCfg "f.tsx" "<div data-ui=\x7brole\x7d>".toList
        ["card".toList] [("card".toList, [])] [] =
      [⟨Severity.error, "contract-role", "f.tsx", some 1,
        "data-ui must be a single string literal."⟩]) ∧
    (∀ (rel : String) (text : List Char) (roles : List (List Char))
      (rav : List (List Char × List (List Char × List (List Char)))) (o : Occ)
      (tagStart tagEnd : Nat) (tagText : List Char),
      extractOpeningTag text o.idx = some (tagStart, tagEnd, tagText) →
      ∀ a, (parseTagAttributes tagText).find?
          (fun a => a.name = "data-ui".toList) = some a →
      ((a.kind = VKind.expr ∨ a.kind = VKind.template) → a.lits.length ≠ 1 →
        contractIssuesForOcc rel text roles rav o =
          [⟨Severity.error, "contract-role", rel, some (computeLineNumber text o.idx),
            "data-ui must be a single string literal."⟩]) ∧
      (a.kind = VKind.bare →
        contractIssuesForOcc rel text roles rav o =
          [⟨Severity.error, "contract-role", rel, some (computeLineNumber text o.idx),
            "data-ui must be a single string literal."⟩]) ∧
      (a.kind = VKind.str → a.raw ≠ [] → a.raw ∉ roles →
        contractIssuesForOcc rel text roles rav o =
          [⟨Severity.error, "contract-role", rel, some (computeLineNumber text o.idx),
            "Unknown data-ui role: " ++ String.mk a.raw⟩])) := by
  refine ⟨by decide, ?_⟩
  intro rel text roles rav o tagStart tagEnd tagText hext a hfind
  refine ⟨?_, ?_, ?_⟩
  · intro hkind hlen
    unfold contractIssuesForOcc
    rw [hext]
    simp only [hfind]
    have : ¬ (a.kind = VKind.str ∧ a.raw ≠ []) := by
      rcases hkind with hk | hk <;> simp [hk]
    rw [if_neg this, if_pos hkind, if_neg hlen]
  · intro hkind
    unfold contractIssuesForOcc
    rw [hext]
    simp only [hfind]
    have h1 : ¬ (a.kind = VKind.str ∧ a.raw ≠ []) := by simp [hkind]
    have h2 : ¬ (a.kind = VKind.expr ∨ a.kind = VKind.template) := by simp [hkind]
    rw [if_neg h1, if_neg h2]
  · intro hkind hraw hrole
    unfold contractIssuesForOcc
    rw [hext]
    simp only [hfind]
    rw [if_pos ⟨hkind, hraw⟩]
    simp only []
    rw [if_neg hraw, if_pos hrole]

/-- Witness for `c7_amended`: its clauses applied to the tag
`<div data-ui={x ? "card" : "card"}>` (two literal occurrences of one
distinguishable literal) and to an unknown resolved role. -/
theorem c7_amended_witness :
    contractIssuesForOcc "f.tsx" "<div data-ui=\x7bx ? \"card\" : \"card\"\x7d>".toList
        ["card".toList] [("card".toList, [])]
        ⟨5, VKind.expr, "x ? \"card\" : \"card\"".toList,
          ["card".toList, "card".toList]⟩ =
      [⟨Severity.error, "contract-role", "f.tsx", some 1,
        "data-ui must be a single string literal."⟩] ∧
    contractIssuesForOcc "f.tsx" "<div data-ui=\"badrole\">".toList
        ["card".toList] [("card".toList, [])]
        ⟨5, VKind.str, "badrole".toList, ["badrole".toList]⟩ =
      [⟨Severity.error, "contract-role", "f.tsx", some 1,
        "Unknown data-ui role: " ++ String.mk "badrole".toList⟩] :=
  ⟨((c7_amended.2 "f.tsx" "<div data-ui=\x7bx ? \"card\" : \"card\"\x7d>".toList
        ["card".toList] [("card".toList, [])]
        ⟨5, VKind.expr, "x ? \"card\" : \"card\"".toList,
          ["card".toList, "card".toList]⟩
        0 34 "<div data-ui=\x7bx ? \"card\" : \"card\"\x7d>".toList
        (by decide)
        ⟨"data-ui".toList, VKind.expr, "x ? \"card\" : \"card\"".toList,
          ["card".toList, "card".toList], 5⟩
        (by decide)).1 (Or.inl rfl) (by decide)),
   ((c7_amended.2 "f.tsx" "<div data-ui=\"badrole\">".toList
        ["card".toList] [("card".toList, [])]
        ⟨5, VKind.str, "badrole".toList, ["badrole".toList]⟩
        0 22 "<div data-ui=\"badrole\">".toList
        (by decide)
        ⟨"data-ui".toList, VKind.str, "badrole".toList, ["badrole".toList], 5⟩
        (by decide)).2.2 rfl (by decide) (by decide))⟩

/-- C7 counterexample: `<div data-ui={x ? "card" : "card"}>` has exactly one
distinguishable literal (`card`, a known role), so by the claim the role
resolves and no `contract-role` ERROR should be emitted — but the validator
counts literal occurrences without deduplication and emits one. -/
theorem c7_counterexample :
    ((iterJsxAttrValues "<div data-ui=\x7bx ? \"card\" : \"card\"\x7d>".toList
        "data-ui".toList).map (fun o => o.lits.dedup) = [["card".toList]]) ∧
    scanJsxChecks defaultTailwindCfg "f.tsx"
        "<div data-ui=\x7bx ? \"card\" : \"card\"\x7d>".toList
        ["card".toList] [("card".toList, [])] [] =
      [⟨Severity.error, "contract-role", "f.tsx", some 1,
        "data-ui must be a single string literal."⟩] :=
  ⟨by decide, by decide⟩


/-! ## Lemmas about the approval ledger and fingerprints (C3, C4, C5) -/

theorem insertSortedStr_perm (s : List Char) :
    ∀ l, List.Perm (insertSortedStr s l) (s :: l) := by
  intro l
  induction l with
  | nil => exact List.Perm.refl _
  | cons t rest ih =>
    unfold insertSortedStr
    by_cases h : pyStrLt s t
    · rw [if_pos h]
    · rw [if_neg h]
      exact ((ih.cons t).trans (List.Perm.swap s t rest))

theorem sortStrings_perm : ∀ l, List.Perm (sortStrings l) l := by
  intro l
  induction l with
  | nil => exact List.Perm.refl _
  | cons x rest ih =>
    have h1 : sortStrings (x :: rest) = insertSortedStr x (sortStrings rest) := rfl
    rw [h1]
    exact (insertSortedStr_perm x (sortStrings rest)).trans (ih.cons x)

theorem append_nl_inj :
    ∀ (a b u v : List Char), '\n' ∉ a → '\n' ∉ b →
      a ++ '\n' :: u = b ++ '\n' :: v → a = b ∧ u = v := by
  intro a
  induction a with
  | nil =>
    intro b u v _ hb h
    cases b with
    | nil => simpa using h
    | cons c bs =>
      rw [List.nil_append, List.cons_append] at h
      have : c = '\n' := (List.cons.inj h).1.symm
      exact absurd (this ▸ List.mem_cons_self c bs) hb
  | cons c as ih =>
    intro b u v ha hb h
    cases b with
    | nil =>
      rw [List.cons_append, List.nil_append] at h
      have : c = '\n' := (List.cons.inj h).1
      exact absurd (this ▸ List.mem_cons_self c as) ha
    | cons d bs =>
      rw [List.cons_append, List.cons_append] at h
      obtain ⟨hcd, htail⟩ := List.cons.inj h
      obtain ⟨h1, h2⟩ := ih bs u v (fun hm => ha (List.mem_cons_of_mem c hm))
        (fun hm => hb (List.mem_cons_of_mem d hm)) htail
      exact ⟨by rw [hcd, h1], h2⟩

theorem joinNl_inj :
    ∀ (l1 l2 : List (List Char)), l1.length = l2.length →
      (∀ s ∈ l1, '\n' ∉ s) → (∀ s ∈ l2, '\n' ∉ s) →
      joinNl l1 = joinNl l2 → l1 = l2 := by
  intro l1
  induction l1 with
  | nil =>
    intro l2 hlen _ _ _
    exact (List.length_eq_zero.mp hlen.symm).symm
  | cons x xs ih =>
    intro l2 hlen h1 h2 h
    cases l2 with
    | nil => exact absurd hlen (by simp)
    | cons y ys =>
      cases xs with
      | nil =>
        cases ys with
        | nil =>
          simp only [joinNl] at h
          rw [h]
        | cons z zs => exact absurd hlen (by simp)
      | cons w ws =>
        cases ys with
        | nil => exact absurd hlen (by simp)
        | cons z zs =>
          have hx : '\n' ∉ x := h1 x (List.mem_cons_self x _)
          have hy : '\n' ∉ y := h2 y (List.mem_cons_self y _)
          have hjoin : x ++ '\n' :: joinNl (w :: ws) = y ++ '\n' :: joinNl (z :: zs) := by
            simpa only [joinNl] using h
          obtain ⟨hxy, htail⟩ := append_nl_inj x y _ _ hx hy hjoin
          have hrec := ih (z :: zs) (by simpa using hlen)
            (fun s hs => h1 s (List.mem_cons_of_mem x hs))
            (fun s hs => h2 s (List.mem_cons_of_mem y hs)) htail
          rw [hxy, hrec]

theorem computeSpecFingerprint_ne (sha : List Char → List Char)
    (hinj : Function.Injective sha)
    (pre post : List (List Char × List Char)) (relc c1 c2 : List Char)
    (hc : c1 ≠ c2)
    (hnl1 : ∀ f ∈ pre ++ (relc, c1) :: post, '\n' ∉ f.1 ∧ '\n' ∉ sha f.2)
    (hnl2 : ∀ f ∈ pre ++ (relc, c2) :: post, '\n' ∉ f.1 ∧ '\n' ∉ sha f.2) :
    (computeSpecFingerprint sha (pre ++ (relc, c1) :: post)).1 ≠
      (computeSpecFingerprint sha (pre ++ (relc, c2) :: post)).1 := by
  intro h
  have hd : sha c1 ≠ sha c2 := fun he => hc (hinj he)
  have hparts1 : (computeSpecFingerprint sha (pre ++ (relc, c1) :: post)).1 =
      sha (joinNl (sortStrings ((pre ++ (relc, c1) :: post).map
        (fun f => f.1 ++ ':' :: sha f.2)))) := by
    unfold computeSpecFingerprint
    simp only [List.map_map]
    rfl
  have hparts2 : (computeSpecFingerprint sha (pre ++ (relc, c2) :: post)).1 =
      sha (joinNl (sortStrings ((pre ++ (relc, c2) :: post).map
        (fun f => f.1 ++ ':' :: sha f.2)))) := by
    unfold computeSpecFingerprint
    simp only [List.map_map]
    rfl
  set pp : List Char × List Char → List Char := fun f => f.1 ++ ':' :: sha f.2 with hpp
  set parts1 := (pre ++ (relc, c1) :: post).map pp with hp1
  set parts2 := (pre ++ (relc, c2) :: post).map pp with hp2
  rw [hparts1, hparts2] at h
  have hjoin : joinNl (sortStrings parts1) = joinNl (sortStrings parts2) := hinj h
  have hlen : (sortStrings parts1).length = (sortStrings parts2).length := by
    rw [(sortStrings_perm parts1).length_eq, (sortStrings_perm parts2).length_eq]
    simp [hp1, hp2]
  have hnlp1 : ∀ s ∈ sortStrings parts1, '\n' ∉ s := by
    intro s hs
    have hs1 : s ∈ parts1 := (sortStrings_perm parts1).mem_iff.mp hs
    rw [hp1] at hs1
    obtain ⟨f, hf, hfs⟩ := List.mem_map.mp hs1
    obtain ⟨hr, hsha⟩ := hnl1 f hf
    rw [← hfs]
    intro hmem
    rcases List.mem_append.mp hmem with hm | hm
    · exact hr hm
    · rcases List.mem_cons.mp hm with hm2 | hm2
      · exact absurd hm2 (by decide)
      · exact hsha hm2
  have hnlp2 : ∀ s ∈ sortStrings parts2, '\n' ∉ s := by
    intro s hs
    have hs1 : s ∈ parts2 := (sortStrings_perm parts2).mem_iff.mp hs
    rw [hp2] at hs1
    obtain ⟨f, hf, hfs⟩ := List.mem_map.mp hs1
    obtain ⟨hr, hsha⟩ := hnl2 f hf
    rw [← hfs]
    intro hmem
    rcases List.mem_append.mp hmem with hm | hm
    · exact hr hm
    · rcases List.mem_cons.mp hm with hm2 | hm2
      · exact absurd hm2 (by decide)
      · exact hsha hm2
  have hsorted : sortStrings parts1 = sortStrings parts2 :=
    joinNl_inj _ _ hlen hnlp1 hnlp2 hjoin
  have hperm : List.Perm parts1 parts2 :=
    ((sortStrings_perm parts1).symm.trans (hsorted ▸ List.Perm.refl _)).trans
      (sortStrings_perm parts2)
  have hne12 : pp (relc, c1) ≠ pp (relc, c2) := by
    intro he
    have := List.append_cancel_left (hpp ▸ he)
    exact hd (List.cons.inj this).2
  have hcount := hperm.countP_eq (fun s => decide (s = pp (relc, c1)))
  rw [hp1, hp2, List.map_append, List.map_append, List.map_cons, List.map_cons,
    List.countP_append, List.countP_append, List.countP_cons, List.countP_cons] at hcount
  simp only [decide_eq_true_eq] at hcount
  rw [if_pos trivial, if_neg (fun he => hne12 he.symm)] at hcount
  omega

theorem latestApproval_concat (l : List ApprovalRecord) (r : ApprovalRecord) (t : String) :
    latestApproval (l ++ [r]) t =
      if r.approvalType = t then some r else latestApproval l t := by
  unfold latestApproval
  rw [List.filter_append]
  by_cases h : r.approvalType = t
  · rw [if_pos h]
    have : List.filter (fun a => decide (a.approvalType = t)) [r] = [r] := by
      simp [h]
    rw [this, List.getLast?_concat]
  · rw [if_neg h]
    have : List.filter (fun a => decide (a.approvalType = t)) [r] = [] := by
      simp [h]
    rw [this, List.append_nil]

theorem latestApproval_single (r : ApprovalRecord) (t : String) :
    latestApproval [r] t = if r.approvalType = t then some r else none := by
  unfold latestApproval
  by_cases h : r.approvalType = t <;> simp [h]

theorem latestApproval_pair (a b : ApprovalRecord) (t : String) :
    latestApproval [a, b] t =
      if b.approvalType = t then some b
      else if a.approvalType = t then some a else none := by
  rw [show ([a, b] : List ApprovalRecord) = [a] ++ [b] from rfl, latestApproval_concat,
    latestApproval_single]

theorem ensureBaseline_latest_spec (ac : ApprovalsCfg) (now specFp : List Char)
    (files : List (List Char)) (excFp : List Char) (ledger : List ApprovalRecord)
    (r : ApprovalRecord) (h : latestApproval ledger "spec_change" = some r) :
    latestApproval (ensureBaselineApprovals ac now specFp files excFp ledger).1
        "spec_change" = some r ∧
    (ensureBaselineApprovals ac now specFp files excFp ledger).2.1 = none := by
  unfold ensureBaselineApprovals
  by_cases he : ac.enabled
  · rw [if_neg (not_not_intro he)]
    by_cases ha : ac.autoBaseline
    · rw [if_neg (not_not_intro ha)]
      simp only []
      rw [if_neg (show ¬ latestApproval ledger "spec_change" = none by rw [h]; simp)]
      by_cases hexc : latestApproval ledger "exception" = none
      · rw [if_pos hexc]
        refine ⟨?_, rfl⟩
        rw [latestApproval_concat, if_neg (by simp [excBaselineRecord])]
        exact h
      · rw [if_neg hexc]
        exact ⟨h, rfl⟩
    · rw [if_pos ha]
      exact ⟨h, rfl⟩
  · rw [if_pos he]
    exact ⟨h, rfl⟩

theorem ensureBaseline_empty (now specFp excFp : List Char) (files : List (List Char)) :
    ensureBaselineApprovals ⟨true, true, true, true⟩ now specFp files excFp [] =
      ([specBaselineRecord now specFp files, excBaselineRecord now excFp],
       some (specBaselineRecord now specFp files),
       some (excBaselineRecord now excFp)) := by
  have hAty : (specBaselineRecord now specFp files).approvalType = "spec_change" := rfl
  have e1 : latestApproval ([] : List ApprovalRecord) "spec_change" = none := rfl
  have e2 : latestApproval [specBaselineRecord now specFp files] "exception" =
      none := by
    rw [latestApproval_single, hAty]
    simp
  unfold ensureBaselineApprovals
  simp [e1, e2]

theorem specCheckPart_match (enforce rm : Bool) (fp : List Char)
    (curMap : List (List Char × List Char)) (l2 : List ApprovalRecord)
    (r : ApprovalRecord) (hlatest : latestApproval l2 "spec_change" = some r)
    (hfp : r.fingerprint = fp) :
    specCheckPart enforce rm fp curMap l2 = ([], none) := by
  unfold specCheckPart
  by_cases he : enforce
  · rw [if_pos he, hlatest]
    simp [hfp]
  · rw [if_neg he]

theorem excCheckPart_match (enforce rm : Bool) (now excFp : List Char)
    (l2 : List ApprovalRecord) (r : ApprovalRecord)
    (hlatest : latestApproval l2 "exception" = some r)
    (hfp : r.fingerprint = excFp) :
    excCheckPart enforce rm now excFp l2 = ([], none) := by
  unfold excCheckPart
  by_cases he : enforce
  · rw [if_pos he, hlatest]
    by_cases hexp : approvalIsExpired now r <;> simp [hexp, hfp]
  · rw [if_neg he]


/-- C4: Scenario E.  On a first-ever run with an empty approvals ledger,
approvals enabled and `auto_baseline_if_missing` set, the gate reports zero
governance-drift issues and creates exactly one `spec_change` and one
`exception` baseline record; a second run on the resulting ledger with
unchanged fingerprints again reports zero drift issues and creates nothing. -/
theorem c4_scenario_e (runMode : Bool) (now1 now2 specFp excFp : List Char)
    (curMap : List (List Char × List Char)) :
    runApprovalChecks ⟨true, true, true, true⟩ true true runMode now1 specFp curMap
        excFp [] =
      ⟨[specBaselineRecord now1 specFp (sortStrings (curMap.map Prod.fst)),
        excBaselineRecord now1 excFp],
       some (specBaselineRecord now1 specFp (sortStrings (curMap.map Prod.fst))),
       some (excBaselineRecord now1 excFp), [], none, none⟩ ∧
    runApprovalChecks ⟨true, true, true, true⟩ true true runMode now2 specFp curMap
        excFp
        [specBaselineRecord now1 specFp (sortStrings (curMap.map Prod.fst)),
         excBaselineRecord now1 excFp] =
      ⟨[specBaselineRecord now1 specFp (sortStrings (curMap.map Prod.fst)),
        excBaselineRecord now1 excFp], none, none, [], none, none⟩ := by
  have hAty : (specBaselineRecord now1 specFp
      (sortStrings (curMap.map Prod.fst))).approvalType = "spec_change" := rfl
  have hBty : (excBaselineRecord now1 excFp).approvalType = "exception" := rfl
  have hls : latestApproval
      [specBaselineRecord now1 specFp (sortStrings (curMap.map Prod.fst)),
       excBaselineRecord now1 excFp] "spec_change" =
      some (specBaselineRecord now1 specFp (sortStrings (curMap.map Prod.fst))) := by
    rw [latestApproval_pair, hAty, hBty]
    simp
  have hle : latestApproval
      [specBaselineRecord now1 specFp (sortStrings (curMap.map Prod.fst)),
       excBaselineRecord now1 excFp] "exception" =
      some (excBaselineRecord now1 excFp) := by
    rw [latestApproval_pair, hBty]
    simp
  constructor
  · unfold runApprovalChecks
    rw [if_neg (by simp)]
    simp only [ensureBaseline_empty]
    rw [specCheckPart_match true runMode specFp curMap _ _ hls rfl,
      excCheckPart_match true runMode now1 excFp _ _ hle rfl]
    rfl
  · have heb2 : ensureBaselineApprovals ⟨true, true, true, true⟩ now2 specFp
        (sortStrings (curMap.map Prod.fst)) excFp
        [specBaselineRecord now1 specFp (sortStrings (curMap.map Prod.fst)),
         excBaselineRecord now1 excFp] =
        ([specBaselineRecord now1 specFp (sortStrings (curMap.map Prod.fst)),
          excBaselineRecord now1 excFp], none, none) := by
      unfold ensureBaselineApprovals
      simp [hls, hle]
    unfold runApprovalChecks
    rw [if_neg (by simp)]
    simp only [heb2]
    rw [specCheckPart_match true runMode specFp curMap _ _ hls rfl,
      excCheckPart_match true runMode now2 excFp _ _ hle rfl]
    rfl


/-- C3 (amended): an expired latest `exception` approval is treated as absent
by the exception drift check (its outcome equals the outcome on an empty
ledger: no previous fingerprint, no drift issue, no request) — but not by the
auto-baseline logic, which keys on the mere existence of a record and
creates no fresh `exception` baseline when only an expired record exists. -/
theorem c3_amended :
    (∀ (enforce rm : Bool) (now excFp : List Char) (l2 : List ApprovalRecord)
      (r : ApprovalRecord), latestApproval l2 "exception" = some r →
      approvalIsExpired now r = true →
      excCheckPart enforce rm now excFp l2 = excCheckPart enforce rm now excFp []) ∧
    (∀ (ac : ApprovalsCfg) (now specFp : List Char) (files : List (List Char))
      (excFp : List Char) (ledger : List ApprovalRecord) (r : ApprovalRecord),
      latestApproval ledger "exception" = some r →
      (ensureBaselineApprovals ac now specFp files excFp ledger).2.2 = none) := by
  constructor
  · intro enforce rm now excFp l2 r hlatest hexp
    unfold excCheckPart
    by_cases he : enforce
    · rw [if_pos he, if_pos he, hlatest]
      simp [hexp, latestApproval]
    · rw [if_neg he, if_neg he]
  · intro ac now specFp files excFp ledger r hlatest
    unfold ensureBaselineApprovals
    by_cases he : ac.enabled
    · rw [if_neg (not_not_intro he)]
      by_cases ha : ac.autoBaseline
      · rw [if_neg (not_not_intro ha)]
        simp only []
        by_cases hs : latestApproval ledger "spec_change" = none
        · rw [if_pos hs]
          rw [if_neg (show ¬ latestApproval
              (ledger ++ [specBaselineRecord now specFp files]) "exception" = none by
            rw [latestApproval_concat, if_neg (by simp [specBaselineRecord]), hlatest]
            simp)]
        · rw [if_neg hs]
          rw [if_neg (show ¬ latestApproval ledger "exception" = none by
            rw [hlatest]; simp)]
      · rw [if_pos ha]
    · rw [if_pos he]

/-- Witness for `c3_amended` at concrete inputs: the exception check on a
ledger holding only an expired record equals the check on the empty ledger,
and the auto-baseline logic creates no exception record on that ledger. -/
theorem c3_amended_witness :
    excCheckPart true true "2026-10-12T00:00:00Z".toList "e1".toList
        [⟨"exception", "2020-01-01T00:00:00Z".toList, "e0".toList,
          some "2020-06-01T00:00:00Z".toList, none⟩] =
      excCheckPart true true "2026-10-12T00:00:00Z".toList "e1".toList [] ∧
    (ensureBaselineApprovals ⟨true, true, true, true⟩ "2026-10-12T00:00:00Z".toList
        "f".toList [] "e1".toList
        [⟨"exception", "2020-01-01T00:00:00Z".toList, "e0".toList,
          some "2020-06-01T00:00:00Z".toList, none⟩]).2.2 = none :=
  ⟨c3_amended.1 true true "2026-10-12T00:00:00Z".toList "e1".toList _
      ⟨"exception", "2020-01-01T00:00:00Z".toList, "e0".toList,
        some "2020-06-01T00:00:00Z".toList, none⟩ (by decide) (by decide),
   c3_amended.2 ⟨true, true, true, true⟩ "2026-10-12T00:00:00Z".toList "f".toList []
      "e1".toList _
      ⟨"exception", "2020-01-01T00:00:00Z".toList, "e0".toList,
        some "2020-06-01T00:00:00Z".toList, none⟩ (by decide)⟩

/-- C3 counterexample: with a ledger holding one expired `exception` record,
the gate run emits no drift issue (the expired record is absent for the drift
check, even though its stored fingerprint differs from the current one), but
the auto-baseline logic does NOT behave as on a run with no exception record:
it creates no new `exception` baseline, while on an empty ledger it does. -/
theorem c3_counterexample :
    approvalIsExpired "2026-10-12T00:00:00Z".toList
      ⟨"exception", "2020-01-01T00:00:00Z".toList, "e0".toList,
        some "2020-06-01T00:00:00Z".toList, none⟩ = true ∧
    (runApprovalChecks ⟨true, true, true, true⟩ true true true
        "2026-10-12T00:00:00Z".toList "f".toList [] "e1".toList
        [⟨"exception", "2020-01-01T00:00:00Z".toList, "e0".toList,
          some "2020-06-01T00:00:00Z".toList, none⟩]).issues = [] ∧
    (runApprovalChecks ⟨true, true, true, true⟩ true true true
        "2026-10-12T00:00:00Z".toList "f".toList [] "e1".toList
        [⟨"exception", "2020-01-01T00:00:00Z".toList, "e0".toList,
          some "2020-06-01T00:00:00Z".toList, none⟩]).createdExc = none ∧
    (runApprovalChecks ⟨true, true, true, true⟩ true true true
        "2026-10-12T00:00:00Z".toList "f".toList [] "e1".toList []).createdExc =
      some (excBaselineRecord "2026-10-12T00:00:00Z".toList "e1".toList) :=
  ⟨by decide, by decide, by decide, by decide⟩


theorem specCheckPart_mismatch (rm : Bool) (fp : List Char)
    (curMap : List (List Char × List Char)) (l2 : List ApprovalRecord)
    (r : ApprovalRecord) (hlatest : latestApproval l2 "spec_change" = some r)
    (hne0 : r.fingerprint ≠ []) (hne : r.fingerprint ≠ fp) :
    (specCheckPart true rm fp curMap l2).1 =
      [⟨Severity.error, "spec-approval-required", "ui/", none,
        "UI spec changed without approval. See approval.request.json and run approval-approve."⟩] ∧
    (∃ ch, (specCheckPart true rm fp curMap l2).2 =
      (if rm then some (⟨"spec_change", some r.fingerprint, fp, ch⟩ : ApprovalRequest)
       else none)) := by
  unfold specCheckPart
  rw [if_pos rfl, hlatest]
  simp only [if_pos (And.intro hne0 hne)]
  constructor
  · trivial
  · exact ⟨_, rfl⟩

theorem excCheckPart_rules (enforce rm : Bool) (now excFp : List Char)
    (l2 : List ApprovalRecord) :
    ∀ i ∈ (excCheckPart enforce rm now excFp l2).1,
      i.rule = "exception-approval-required" := by
  intro i hi
  unfold excCheckPart at hi
  by_cases he : enforce
  · rw [if_pos he] at hi
    rcases hL : latestApproval l2 "exception" with _ | r <;> rw [hL] at hi
    · simp at hi
    · simp only [] at hi
      by_cases hexp : approvalIsExpired now r = true
      · rw [if_pos hexp] at hi
        simp at hi
      · rw [if_neg hexp] at hi
        by_cases hfp : r.fingerprint ≠ [] ∧ r.fingerprint ≠ excFp
        · rw [if_pos hfp] at hi
          simp only [List.mem_singleton] at hi
          rw [hi]
        · rw [if_neg hfp] at hi
          simp at hi
  · rw [if_neg he] at hi
    simp at hi


/-- C5: after a baseline `spec_change` approval for the governed files exists,
changing the contract file's bytes makes the next run declare spec drift:
exactly one `spec-approval-required` ERROR among the gate's drift issues, and
in run mode an approval request whose `current_fingerprint` differs from its
`previous_fingerprint`.  The SHA-256 digest is abstracted as an injective
`sha` whose relevant outputs (like real hex digests) are newline-free. -/
theorem c5_spec_drift (sha : List Char → List Char) (hinj : Function.Injective sha)
    (pre post : List (List Char × List Char)) (relc c1 c2 : List Char) (hc : c1 ≠ c2)
    (hnl1 : ∀ f ∈ pre ++ (relc, c1) :: post, '\n' ∉ f.1 ∧ '\n' ∉ sha f.2)
    (hnl2 : ∀ f ∈ pre ++ (relc, c2) :: post, '\n' ∉ f.1 ∧ '\n' ∉ sha f.2)
    (hfp1ne : (computeSpecFingerprint sha (pre ++ (relc, c1) :: post)).1 ≠ [])
    (ledger : List ApprovalRecord) (r : ApprovalRecord)
    (hlatest : latestApproval ledger "spec_change" = some r)
    (hfpr : r.fingerprint = (computeSpecFingerprint sha (pre ++ (relc, c1) :: post)).1)
    (ac : ApprovalsCfg) (hen : ac.enabled = true) (hes : ac.enforceSpec = true)
    (now excFp : List Char) :
    ((runApprovalChecks ac true true true now
        (computeSpecFingerprint sha (pre ++ (relc, c2) :: post)).1
        (computeSpecFingerprint sha (pre ++ (relc, c2) :: post)).2 excFp
        ledger).issues.filter
        (fun i => i.rule = "spec-approval-required")).length = 1 ∧
    ((runApprovalChecks ac true true true now
        (computeSpecFingerprint sha (pre ++ (relc, c2) :: post)).1
        (computeSpecFingerprint sha (pre ++ (relc, c2) :: post)).2 excFp
        ledger).specRequest).map
        (fun q => (q.previousFingerprint, q.currentFingerprint)) =
      some (some r.fingerprint,
        (computeSpecFingerprint sha (pre ++ (relc, c2) :: post)).1) ∧
    r.fingerprint ≠ (computeSpecFingerprint sha (pre ++ (relc, c2) :: post)).1 := by
  have hne : r.fingerprint ≠
      (computeSpecFingerprint sha (pre ++ (relc, c2) :: post)).1 := by
    rw [hfpr]
    exact computeSpecFingerprint_ne sha hinj pre post relc c1 c2 hc hnl1 hnl2
  have hne0 : r.fingerprint ≠ [] := by
    rw [hfpr]
    exact hfp1ne
  obtain ⟨hl2, _⟩ := ensureBaseline_latest_spec ac now
    (computeSpecFingerprint sha (pre ++ (relc, c2) :: post)).1
    (sortStrings
      (((computeSpecFingerprint sha (pre ++ (relc, c2) :: post)).2).map Prod.fst))
    excFp ledger r hlatest
  obtain ⟨hs1, hs2⟩ := specCheckPart_mismatch true
    (computeSpecFingerprint sha (pre ++ (relc, c2) :: post)).1
    (computeSpecFingerprint sha (pre ++ (relc, c2) :: post)).2 _ r hl2 hne0 hne
  refine ⟨?_, ?_, hne⟩
  · unfold runApprovalChecks
    rw [if_neg (by simp [hen])]
    simp only [hes]
    rw [List.filter_append, hs1]
    have hef : ((excCheckPart ac.enforceExc true now excFp
        (ensureBaselineApprovals ac now
          (computeSpecFingerprint sha (pre ++ (relc, c2) :: post)).1
          (sortStrings
            (((computeSpecFingerprint sha (pre ++ (relc, c2) :: post)).2).map Prod.fst))
          excFp ledger).1).1.filter
        (fun i => decide (i.rule = "spec-approval-required"))) = [] := by
      rw [List.filter_eq_nil_iff]
      intro i hi
      rw [excCheckPart_rules _ _ _ _ _ i hi]
      simp
    rw [hef]
    simp
  · obtain ⟨ch, hreq⟩ := hs2
    unfold runApprovalChecks
    rw [if_neg (by simp [hen])]
    simp only [hes]
    rw [hreq]
    simp


theorem consHash_injective : Function.Injective (fun l : List Char => '#' :: l) :=
  fun _ _ h => (List.cons.inj h).2

/-- Witness for `c5_spec_drift`: one governed file `c` whose content changes
from `a` to `b`, with the hash modelled by an injective prefixing function. -/
theorem c5_spec_drift_witness :
    ((runApprovalChecks ⟨true, true, true, true⟩ true true true "t".toList
        (computeSpecFingerprint (fun l => '#' :: l) [(['c'], ['b'])]).1
        (computeSpecFingerprint (fun l => '#' :: l) [(['c'], ['b'])]).2 "e".toList
        [⟨"spec_change", "2026-01-01T00:00:00Z".toList,
          (computeSpecFingerprint (fun l => '#' :: l) [(['c'], ['a'])]).1, none,
          some [['c']]⟩]).issues.filter
        (fun i => i.rule = "spec-approval-required")).length = 1 ∧
    ((runApprovalChecks ⟨true, true, true, true⟩ true true true "t".toList
        (computeSpecFingerprint (fun l => '#' :: l) [(['c'], ['b'])]).1
        (computeSpecFingerprint (fun l => '#' :: l) [(['c'], ['b'])]).2 "e".toList
        [⟨"spec_change", "2026-01-01T00:00:00Z".toList,
          (computeSpecFingerprint (fun l => '#' :: l) [(['c'], ['a'])]).1, none,
          some [['c']]⟩]).specRequest).map
        (fun q => (q.previousFingerprint, q.currentFingerprint)) =
      some (some (ApprovalRecord.fingerprint
          ⟨"spec_change", "2026-01-01T00:00:00Z".toList,
            (computeSpecFingerprint (fun l => '#' :: l) [(['c'], ['a'])]).1, none,
            some [['c']]⟩),
        (computeSpecFingerprint (fun l => '#' :: l) [(['c'], ['b'])]).1) ∧
    ApprovalRecord.fingerprint
        ⟨"spec_change", "2026-01-01T00:00:00Z".toList,
          (computeSpecFingerprint (fun l => '#' :: l) [(['c'], ['a'])]).1, none,
          some [['c']]⟩ ≠
      (computeSpecFingerprint (fun l => '#' :: l) [(['c'], ['b'])]).1 :=
  c5_spec_drift (fun l => '#' :: l) consHash_injective [] [] ['c'] ['a'] ['b']
    (by decide)
    (by intro f hf; simp only [List.nil_append, List.mem_singleton] at hf;
        subst hf; exact ⟨by decide, by decide⟩)
    (by intro f hf; simp only [List.nil_append, List.mem_singleton] at hf;
        subst hf; exact ⟨by decide, by decide⟩)
    (by decide)
    [⟨"spec_change", "2026-01-01T00:00:00Z".toList,
      (computeSpecFingerprint (fun l => '#' :: l) [(['c'], ['a'])]).1, none,
      some [['c']]⟩]
    ⟨"spec_change", "2026-01-01T00:00:00Z".toList,
      (computeSpecFingerprint (fun l => '#' :: l) [(['c'], ['a'])]).1, none,
      some [['c']]⟩
    (by decide) rfl ⟨true, true, true, true⟩ rfl rfl "t".toList "e".toList


/-! ## Termination of the attribute-value iterator (C10) -/

theorem findFromF_some (text pat : List Char) :
    ∀ (fuel i idx : Nat), findFromF text pat fuel i = some idx →
      i ≤ idx ∧ idx < text.length := by
  intro fuel
  induction fuel with
  | zero => intro i idx h; exact absurd h (by simp [findFromF])
  | succ k ih =>
    intro i idx h
    unfold findFromF at h
    by_cases hlt : i < text.length
    · rw [if_pos hlt] at h
      by_cases hp : pat.isPrefixOf (text.drop i)
      · rw [if_pos hp] at h
        obtain rfl := Option.some.inj h
        exact ⟨le_rfl, hlt⟩
      · rw [if_neg hp] at h
        obtain ⟨h1, h2⟩ := ih (i + 1) idx h
        exact ⟨by omega, h2⟩
    · rw [if_neg hlt] at h
      exact absurd h (by simp)

theorem findFrom_some (text pat : List Char) (i idx : Nat)
    (h : findFrom text pat i = some idx) : i ≤ idx ∧ idx < text.length :=
  findFromF_some text pat (text.length + 1) i idx h

theorem findFrom_none_of_le (text pat : List Char) (i : Nat)
    (h : text.length ≤ i) : findFrom text pat i = none := by
  unfold findFrom findFromF
  rw [if_neg (by omega)]

theorem skipSpacesF_ge (text : List Char) :
    ∀ (fuel i : Nat), i ≤ skipSpacesF text fuel i := by
  intro fuel
  induction fuel with
  | zero => intro i; exact le_rfl
  | succ k ih =>
    intro i
    unfold skipSpacesF
    rcases hg : text.get? i with _ | c
    · exact le_rfl
    · simp only []
      by_cases hw : c.isWhitespace
      · rw [if_pos hw]
        exact le_trans (by omega) (ih (i + 1))
      · rw [if_neg hw]

theorem skipSpaces_ge (text : List Char) (i : Nat) : i ≤ skipSpaces text i :=
  skipSpacesF_ge text (text.length + 1) i

theorem iterStep_progress (text attr : List Char) (hattr : attr.length ≠ 0)
    (i : Nat) (oc : Option Occ) (i2 : Nat)
    (h : iterStep text attr i = some (oc, i2)) :
    i < i2 ∧ ∀ o, oc = some o → i ≤ o.idx ∧ o.idx < i2 ∧ o.idx < text.length := by
  unfold iterStep at h
  rcases hf : findFrom text attr i with _ | idx
  · rw [hf] at h
    exact absurd h (by simp)
  · rw [hf] at h
    simp only [] at h
    obtain ⟨hi, hlt⟩ := findFrom_some text attr i idx hf
    have h1 : 1 ≤ attr.length := Nat.one_le_iff_ne_zero.mpr hattr
    have hj : idx + attr.length ≤ skipSpaces text (idx + attr.length) :=
      skipSpaces_ge text (idx + attr.length)
    have hj1 : skipSpaces text (idx + attr.length) + 1 ≤
        skipSpaces text (skipSpaces text (idx + attr.length) + 1) :=
      skipSpaces_ge text (skipSpaces text (idx + attr.length) + 1)
    by_cases hb : ¬ atWordBoundary text idx attr
    · rw [if_pos hb] at h
      obtain ⟨h2, h3⟩ := Prod.mk.inj (Option.some.inj h)
      refine ⟨by omega, ?_⟩
      intro o ho
      rw [← h2] at ho
      exact absurd ho (by simp)
    · rw [if_neg hb] at h
      by_cases he : text.get? (skipSpaces text (idx + attr.length)) ≠ some '='
      · rw [if_pos he] at h
        obtain ⟨h2, h3⟩ := Prod.mk.inj (Option.some.inj h)
        refine ⟨by omega, ?_⟩
        intro o ho
        rw [← h2] at ho
        exact absurd ho (by simp)
      · rw [if_neg he] at h
        rcases hg : text.get?
            (skipSpaces text (skipSpaces text (idx + attr.length) + 1)) with _ | c
        · rw [hg] at h
          obtain ⟨h2, h3⟩ := Prod.mk.inj (Option.some.inj h)
          refine ⟨by omega, ?_⟩
          intro o ho
          rw [← h2] at ho
          exact absurd ho (by simp)
        · rw [hg] at h
          simp only [] at h
          by_cases hq : c = '"' ∨ c = squote
          · rw [if_pos hq] at h
            obtain ⟨h2, h3⟩ := Prod.mk.inj (Option.some.inj h)
            have hmax : skipSpaces text (skipSpaces text (idx + attr.length) + 1) + 1
                ≤ i2 := by
              rw [← h3]
              exact le_max_right _ _
            refine ⟨by omega, ?_⟩
            intro o ho
            rw [← h2] at ho
            obtain rfl := Option.some.inj ho
            exact ⟨by simp only []; omega, by simp only []; omega, by simp only []; exact hlt⟩
          · rw [if_neg hq] at h
            by_cases hbr : c = '{'
            · rw [if_pos hbr] at h
              obtain ⟨h2, h3⟩ := Prod.mk.inj (Option.some.inj h)
              have hmax : skipSpaces text (skipSpaces text (idx + attr.length) + 1) + 1
                  ≤ i2 := by
                rw [← h3]
                exact le_max_right _ _
              refine ⟨by omega, ?_⟩
              intro o ho
              rw [← h2] at ho
              obtain rfl := Option.some.inj ho
              exact ⟨by simp only []; omega, by simp only []; omega, by simp only []; exact hlt⟩
            · rw [if_neg hbr] at h
              by_cases hbt : c = btick
              · rw [if_pos hbt] at h
                obtain ⟨h2, h3⟩ := Prod.mk.inj (Option.some.inj h)
                have hmax : skipSpaces text (skipSpaces text (idx + attr.length) + 1) + 1
                    ≤ i2 := by
                  rw [← h3]
                  exact le_max_right _ _
                refine ⟨by omega, ?_⟩
                intro o ho
                rw [← h2] at ho
                obtain rfl := Option.some.inj ho
                exact ⟨by simp only []; omega, by simp only []; omega, by simp only []; exact hlt⟩
              · rw [if_neg hbt] at h
                obtain ⟨h2, h3⟩ := Prod.mk.inj (Option.some.inj h)
                refine ⟨by omega, ?_⟩
                intro o ho
                rw [← h2] at ho
                obtain rfl := Option.some.inj ho
                exact ⟨by simp only []; omega, by simp only []; omega, by simp only []; exact hlt⟩


theorem iterAuxF_succ (text attr : List Char) (fuel i : Nat) :
    iterAuxF text attr (fuel + 1) i =
      if attr.length = 0 then []
      else match iterStep text attr i with
        | none => []
        | some (oc, i2) => oc.toList ++ iterAuxF text attr fuel i2 := rfl

theorem iterAuxF_of_le (text attr : List Char) (i : Nat) (h : text.length ≤ i) :
    ∀ fuel, iterAuxF text attr fuel i = [] := by
  intro fuel
  cases fuel with
  | zero => rfl
  | succ k =>
    rw [iterAuxF_succ]
    by_cases ha : attr.length = 0
    · rw [if_pos ha]
    · rw [if_neg ha]
      have hstep : iterStep text attr i = none := by
        unfold iterStep
        rw [findFrom_none_of_le text attr i h]
      rw [hstep]

theorem iterAuxF_bounds_chain (text attr : List Char) (hattr : attr.length ≠ 0) :
    ∀ (fuel i : Nat),
      (∀ o ∈ iterAuxF text attr fuel i, i ≤ o.idx ∧ o.idx < text.length) ∧
      List.Chain' (fun a b => a.idx < b.idx) (iterAuxF text attr fuel i) := by
  intro fuel
  induction fuel with
  | zero =>
    intro i
    exact ⟨fun o ho => absurd ho (by simp [iterAuxF]), by simp [iterAuxF]⟩
  | succ k ih =>
    intro i
    rw [iterAuxF_succ, if_neg hattr]
    rcases hs : iterStep text attr i with _ | ⟨oc, i2⟩
    · exact ⟨fun o ho => absurd ho (by simp), by simp⟩
    · simp only []
      obtain ⟨hlt, hoc⟩ := iterStep_progress text attr hattr i oc i2 hs
      obtain ⟨ihb, ihc⟩ := ih i2
      constructor
      · intro o ho
        rcases List.mem_append.mp ho with h1 | h2
        · rcases oc with _ | o0
          · exact absurd h1 (by simp [Option.toList])
          · have ho0 : o = o0 := by simpa [Option.toList] using h1
            subst ho0
            obtain ⟨ha, hb, hc⟩ := hoc o rfl
            exact ⟨ha, hc⟩
        · obtain ⟨ha, hb⟩ := ihb o h2
          exact ⟨by omega, hb⟩
      · rcases oc with _ | o0
        · simpa [Option.toList] using ihc
        · show List.Chain' (fun a b => a.idx < b.idx) (o0 :: iterAuxF text attr k i2)
          rw [List.chain'_cons']
          refine ⟨?_, ihc⟩
          intro b hb
          have hbmem : b ∈ iterAuxF text attr k i2 := List.mem_of_mem_head? hb
          obtain ⟨hb1, hb2⟩ := ihb b hbmem
          obtain ⟨ha, hlt2, hc⟩ := hoc o0 rfl
          exact lt_of_lt_of_le hlt2 hb1

theorem iterAuxF_stable (text attr : List Char) :
    ∀ (fuel i fuel2 : Nat), text.length ≤ fuel + i → text.length ≤ fuel2 + i →
      iterAuxF text attr fuel i = iterAuxF text attr fuel2 i := by
  intro fuel
  induction fuel with
  | zero =>
    intro i fuel2 h1 h2
    rw [iterAuxF_of_le text attr i (by omega), iterAuxF_of_le text attr i (by omega)]
  | succ k ih =>
    intro i fuel2 h1 h2
    cases fuel2 with
    | zero =>
      rw [iterAuxF_of_le text attr i (by omega), iterAuxF_of_le text attr i (by omega)]
    | succ m =>
      rw [iterAuxF_succ, iterAuxF_succ]
      by_cases ha : attr.length = 0
      · rw [if_pos ha, if_pos ha]
      · rw [if_neg ha, if_neg ha]
        rcases hs : iterStep text attr i with _ | ⟨oc, i2⟩
        · rfl
        · simp only []
          have hlt := (iterStep_progress text attr ha i oc i2 hs).1
          rw [ih i2 m (by omega) (by omega)]

/-- C10: for every finite input text and every non-empty attribute name, the
attribute-value iterator of `_iter_jsx_attr_values` terminates after yielding
finitely many occurrences: the scan index strictly increases across loop
iterations (every successful `iterStep` moves the index forward, and the
yielded occurrence offsets form a strictly increasing sequence inside the
text), so any fuel bound of at least `text.length + 2` computes the same
finite occurrence list as the iterator itself. -/
theorem c10_termination (text attr : List Char) (hattr : attr ≠ []) :
    List.Chain' (fun a b => a.idx < b.idx) (iterJsxAttrValues text attr) ∧
    (∀ o ∈ iterJsxAttrValues text attr, o.idx < text.length) ∧
    (∀ (i : Nat) (oc : Option Occ) (i2 : Nat),
      iterStep text attr i = some (oc, i2) → i < i2) ∧
    (∀ fuel, text.length + 2 ≤ fuel →
      iterAuxF text attr fuel 0 = iterJsxAttrValues text attr) := by
  have ha : attr.length ≠ 0 := fun h => hattr (List.length_eq_zero.mp h)
  obtain ⟨hb, hc⟩ := iterAuxF_bounds_chain text attr ha (text.length + 2) 0
  refine ⟨hc, fun o ho => (hb o ho).2,
    fun i oc i2 hs => (iterStep_progress text attr ha i oc i2 hs).1, ?_⟩
  intro fuel hf
  exact iterAuxF_stable text attr fuel 0 (text.length + 2) (by omega) (by omega)

theorem c10_termination_witness :
    ("cls".toList : List Char) ≠ [] ∧
    (List.Chain' (fun a b => a.idx < b.idx)
        (iterJsxAttrValues "<p cls=\x22a\x22 cls=\x22b\x22>".toList "cls".toList) ∧
    (∀ o ∈ iterJsxAttrValues "<p cls=\x22a\x22 cls=\x22b\x22>".toList "cls".toList,
        o.idx < ("<p cls=\x22a\x22 cls=\x22b\x22>".toList : List Char).length) ∧
    (∀ (i : Nat) (oc : Option Occ) (i2 : Nat),
      iterStep "<p cls=\x22a\x22 cls=\x22b\x22>".toList "cls".toList i = some (oc, i2) →
        i < i2) ∧
    (∀ fuel, ("<p cls=\x22a\x22 cls=\x22b\x22>".toList : List Char).length + 2 ≤ fuel →
      iterAuxF "<p cls=\x22a\x22 cls=\x22b\x22>".toList "cls".toList fuel 0 =
        iterJsxAttrValues "<p cls=\x22a\x22 cls=\x22b\x22>".toList "cls".toList)) :=
  ⟨by decide, c10_termination "<p cls=\x22a\x22 cls=\x22b\x22>".toList "cls".toList (by decide)⟩

end UiGate
